import Mathlib

/-!
Verification of `igloo-backend/server.js` (and `igloo-backend/sql/schema.sql`)
against its natural-language specification.

The development shallowly embeds the decision logic of the backend:

* the answer-key codec of `POST /admin/tests/upload` and `PUT /admin/tests/:id`
  (letter string to `{"q<i>": index}` map),
* the autograding loop of `POST /submissions`, including an exact model of the
  JavaScript binary64 evaluation of `Math.round((correct / Math.max(total, 1)) * 100)`,
* the test / submission store as lists of records, with the relevant
  PostgreSQL behaviour (`SELECT ... WHERE id`, `INSERT`, `UPDATE`, `DELETE`,
  `LEFT JOIN`, and the `NOT NULL` column constraint declared in `schema.sql`),
* the uploaded-asset file store as a list of paths, with `tryDeleteFile` and
  the handlers that mutate it.

JavaScript numbers are IEEE-754 binary64.  For the magnitudes that occur in
the grading pipeline (counts and a final value in `[0, 100]`) binary64
arithmetic is exactly "round the true rational result to 53 significand bits,
to nearest, ties to even"; no overflow or subnormal can occur.  The model
below implements that rounding exactly over `ℕ`/`ℤ` (so that the kernel can
evaluate it) and the proofs interpret the results in `ℚ`.
-/

deriving instance DecidableEq for Except

namespace Igloo

/-! ### Exact binary64 model of the score computation -/

/-- Round-to-nearest, ties-to-even, of the rational `a / b` (for `b > 0`):
the quotient, bumped by one when the remainder is more than half of `b`,
or exactly half of `b` with an odd quotient. -/
def rneDiv (a b : ℕ) : ℕ :=
  let q := a / b
  let r := a % b
  if 2 * r < b then q
  else if b < 2 * r then q + 1
  else if q % 2 = 0 then q else q + 1

/-- Fueled floor of the base-2 logarithm: for `1 ≤ n ≤ fuel`,
`2 ^ nlog2 fuel n ≤ n < 2 ^ (nlog2 fuel n + 1)`. -/
def nlog2 : ℕ → ℕ → ℕ
  | 0, _ => 0
  | fuel + 1, n => if n < 2 then 0 else nlog2 fuel (n / 2) + 1

/-- Fueled ceiling of the base-2 logarithm: for `1 ≤ n ≤ fuel`,
`n ≤ 2 ^ nclog2 fuel n`, and `2 ^ nclog2 fuel n < 2 * n`. -/
def nclog2 : ℕ → ℕ → ℕ
  | 0, _ => 0
  | fuel + 1, n => if n ≤ 1 then 0 else nclog2 fuel ((n + 1) / 2) + 1

/-- Floor of the base-2 logarithm of the positive rational `a / b`:
the unique `e : ℤ` with `2 ^ e ≤ a / b < 2 ^ (e + 1)`.
For `a / b ≥ 1` this is `⌊log₂ ⌊a/b⌋⌋`; for `a / b < 1` it is
`-⌈log₂ ⌈b/a⌉⌉` (and `(b + a - 1) / a` is `⌈b/a⌉`). -/
def ratLog2 (a b : ℕ) : ℤ :=
  if b ≤ a then (nlog2 (a / b) (a / b) : ℤ)
  else -(nclog2 ((b + a - 1) / a) ((b + a - 1) / a) : ℤ)

/-- Binary64 rounding of the positive rational `a / b`, unbounded exponent:
returns `(m, s)` with value `m / 2 ^ s`, where `s = 52 - e`,
`e` is the floor of the base-2 logarithm of `a / b`, and `m` is `a / b`
scaled to `[2^52, 2^53]` and rounded to the nearest integer, ties to even.
This is exactly the IEEE-754 double nearest to `a / b` (no overflow or
subnormals in the ranges used here). -/
def rnd53 (a b : ℕ) : ℕ × ℤ :=
  let e := ratLog2 a b
  let s := 52 - e
  if 0 ≤ s then (rneDiv (a * 2 ^ s.toNat) b, s) else (rneDiv a (b * 2 ^ (-s).toNat), s)

/-- Binary64 rounding of the dyadic rational `a / 2 ^ s` (with `s : ℤ`). -/
def rnd53dy (a : ℕ) (s : ℤ) : ℕ × ℤ :=
  if 0 ≤ s then rnd53 a (2 ^ s.toNat) else rnd53 (a * 2 ^ (-s).toNat) 1

/-- JavaScript `Math.round` (round half towards `+∞`) of the nonnegative
dyadic rational `m / 2 ^ s`. -/
def roundDy (p : ℕ × ℤ) : ℕ :=
  if 0 ≤ p.2 then (2 * p.1 + 2 ^ p.2.toNat) / 2 ^ (p.2.toNat + 1)
  else p.1 * 2 ^ (-p.2).toNat

/-- Exact value of `Math.round((correct / Math.max(total, 1)) * 100)` as
evaluated by JavaScript in binary64 (`server.js` line 535): the division is
rounded to a double, the product with `100` is rounded to a double, and
`Math.round` rounds that double half-up to an integer.  `correct = 0` gives
`0` through every branch, so it is returned directly. -/
def jsScore (correct total : ℕ) : ℕ :=
  if correct = 0 then 0
  else
    let p1 := rnd53 correct (max total 1)
    let p2 := rnd53dy (p1.1 * 100) p1.2
    roundDy p2

example : jsScore 2 3 = 67 := by decide
example : jsScore 23 40 = 57 := by decide
example : jsScore 1 8 = 13 := by decide
example : jsScore 29 200 = 14 := by decide
example : jsScore 0 0 = 0 := by decide
example : jsScore 5 5 = 100 := by decide
example : jsScore 1 3 = 33 := by decide

/-! ### Answer-key codec (`POST /admin/tests/upload` lines 271-283,
`PUT /admin/tests/:id` lines 341-361) -/

/-- The allowed choice letters: `"ABCDE".slice(0, c)`. -/
def lettersFor (c : ℕ) : List Char :=
  (['A', 'B', 'C', 'D', 'E']).take c

/-- Normalization applied to the submitted key string (line 273 / line 351):
`.trim().toUpperCase().replace(/\s+/g, "")`.  Upper-casing does not create
whitespace and removing every whitespace character subsumes `trim`, so the
composite is: upper-case each character, then drop all whitespace.
(ASCII model of the JavaScript string operations.) -/
def normalizeKey (s : String) : List Char :=
  (s.toList.map Char.toUpper).filter (fun ch => !ch.isWhitespace)

/-- The encoding loop of lines 278-283: for each character, look it up in the
allowed letters (`letters.indexOf(keyStr[i])`); an absent character
(`idx === -1`, here `indexOf = length`) is a validation error, otherwise the
entry `("q<i+1>", idx)` is emitted.  `i` is the 1-based question number of the
head character. -/
def encodeLoop (letters : List Char) : ℕ → List Char → Except String (List (String × ℕ))
  | _, [] => .ok []
  | i, ch :: rest =>
    if letters.indexOf ch < letters.length then
      match encodeLoop letters (i + 1) rest with
      | .error e => .error e
      | .ok m => .ok (("q" ++ toString i, letters.indexOf ch) :: m)
    else .error ("answer_key must use only " ++ String.mk letters)

/-- Answer-key codec: length check of line 274, then the loop of lines 278-283. -/
def encodeAnswerKey (n : ℕ) (letters : List Char) (key : List Char) :
    Except String (List (String × ℕ)) :=
  if key.length ≠ n then .error ("answer_key must be length " ++ toString n)
  else encodeLoop letters 1 key

/-! ### Grading loop (`POST /submissions` lines 526-535) -/

/-- The grading loop of lines 530-533: over the entries of the stored answer
key, count `(correct, total)`.  `ans` is the lookup semantics of the
submitted `answers` JSON value: `ans qid = some v` when `answers[qid]` is the
number `v`, and `none` when the property is absent (or `answers` itself is
null, or the value is not a number — strict equality with the stored index
then fails). -/
def gradeCounts (key : List (String × ℕ)) (ans : String → Option ℤ) : ℕ × ℕ :=
  key.foldl
    (fun p entry =>
      (p.1 + (if ans entry.1 = some (entry.2 : ℤ) then 1 else 0), p.2 + 1))
    (0, 0)

/-! ### Data model (`sql/schema.sql` and the `questions` JSON document) -/

/-- The `questions` jsonb document built at upload (lines 286-292). -/
structure Questions where
  qtype : String
  imageUrl : Option String
  numQuestions : ℕ
  choicesCount : ℕ
  choices : List Char
deriving DecidableEq, Repr

/-- A row of the `tests` table. -/
structure TestRec where
  tid : String
  subject : String
  level : String
  title : String
  questions : Questions
  answerKey : List (String × ℕ)
  createdAt : ℕ
deriving DecidableEq, Repr

/-- A row of the `submissions` table.  `testId` is an `Option` because
`server.js` requires the column to be nullable (comment at lines 443-444,
457); the `NOT NULL` constraint that `schema.sql` line 15 actually declares
is modelled in `detachSubmissions` below. -/
structure SubRec where
  sid : String
  testId : Option String
  name : String
  grade : String
  email : String
  phone : String
  subject : String
  level : String
  answers : List (String × ℤ)
  score : ℕ
  submittedAt : ℕ
deriving DecidableEq, Repr

/-- The database: the two tables of `schema.sql`. -/
structure DB where
  tests : List TestRec
  submissions : List SubRec
deriving DecidableEq, Repr

/-- Lookup semantics of a stored JSON object (association list, first match). -/
def lookupAns (answers : List (String × ℤ)) : String → Option ℤ :=
  fun q => (answers.find? (fun p => p.1 == q)).map (fun p => p.2)

/-! ### File store and `tryDeleteFile` (lines 80-90) -/

/-- JavaScript `String.prototype.trim`: drop leading and trailing whitespace
(ASCII model, implemented over character lists so the kernel can evaluate
it). -/
def jsTrim (s : String) : String :=
  String.mk (((s.toList.dropWhile Char.isWhitespace).reverse.dropWhile
    Char.isWhitespace).reverse)

/-- JavaScript `String.prototype.toLowerCase` (ASCII model). -/
def lowerAscii (s : String) : String :=
  String.mk (s.toList.map Char.toLower)

/-- The uploads directory, `path.join(process.cwd(), "uploads")`, modelled as
the relative path `"uploads"`. -/
def uploadDir : String := "uploads"

/-- `String(relativeUrl).replace(/^\/uploads\//, "")`: strip one leading
`"/uploads/"` when present.  (Implemented over character lists so that the
kernel can evaluate it.) -/
def stripUploadsDir (url : String) : String :=
  if ("/uploads/".toList).isPrefixOf url.toList then String.mk (url.toList.drop 9)
  else url

/-- Does the character list contain two consecutive dots (`".."`)? -/
def hasDotDot : List Char → Bool
  | [] => false
  | '.' :: '.' :: _ => true
  | _ :: rest => hasDotDot rest

/-- `tryDeleteFile` (lines 80-90): empty URL, empty filename, or a filename
containing `".."` silently delete nothing; otherwise the file
`path.join(uploadDir, filename)` is unlinked if it exists.  The whole body is
inside `try/catch` and the catch only logs, so a filesystem failure
(modelled by `fsFail = true`: `unlinkSync` throws) leaves the store unchanged
and is never propagated — the function returns a plain file store, not an
error. -/
def tryDeleteFile (url : String) (fsFail : Bool) (files : List String) : List String :=
  if url = "" then files
  else
    let filename := stripUploadsDir url
    if filename = "" ∨ hasDotDot filename.toList then files
    else
      let full := uploadDir ++ "/" ++ filename
      if files.contains full then (if fsFail then files else files.erase full) else files

example : tryDeleteFile "/uploads/a.png" false ["uploads/a.png", "uploads/b.png"]
    = ["uploads/b.png"] := by decide
example : tryDeleteFile "/uploads/../server.js" false ["server.js"] = ["server.js"] := by
  decide
example : tryDeleteFile "" true ["uploads/a.png"] = ["uploads/a.png"] := by decide

/-! ### Request handlers

Each handler is modelled as a function from its (already parsed) request
parameters and the current state (`DB`, and where relevant the file store) to
an `Except (status × message)` response together with the new state.
Numeric form fields arrive as `Option ℤ` (`none` models an absent field, i.e.
`parseInt`/`Number` producing `NaN`).  A `fsFail` flag models `fs.unlinkSync`
throwing; a `persistOk` flag models the `UPDATE` query of the image-replace
handler failing (its `catch` path). -/

/-- SELECT a test row by id. -/
def findTest (db : DB) (tid : String) : Option TestRec :=
  db.tests.find? (fun t => t.tid == tid)

/-- The statement `UPDATE submissions SET test_id = NULL WHERE test_id = $1`
(line 458) evaluated against the schema of `sql/schema.sql`, whose line 15
declares `test_id uuid NOT NULL REFERENCES tests(id) ON DELETE CASCADE`.
PostgreSQL checks the `NOT NULL` constraint on every updated row: if any
submission matches the `WHERE` clause the statement fails with a
not-null-violation error and changes nothing; if no row matches it succeeds
as a no-op. -/
def detachSubmissions (db : DB) (tid : String) : Except String DB :=
  if db.submissions.any (fun s => s.testId == some tid) then
    .error "null value in column \x22test_id\x22 violates not-null constraint"
  else .ok db

/-- `DELETE /admin/tests/:id` (lines 446-470): select the test (404 when
absent), detach its submissions, delete the row, then best-effort delete its
image asset.  Any thrown database error — in particular the not-null
violation from `detachSubmissions` — is caught and reported as a 500 with the
state unchanged. -/
def deleteTestHandler (db : DB) (tid : String) (fsFail : Bool) (files : List String) :
    Except (ℕ × String) Bool × DB × List String :=
  match findTest db tid with
  | none => (.error (404, "test not found"), db, files)
  | some t =>
    match detachSubmissions db tid with
    | .error _ => (.error (500, "failed to delete test"), db, files)
    | .ok db1 =>
      let db2 : DB := { db1 with tests := db1.tests.filter (fun x => ¬(x.tid == tid)) }
      let files2 := match t.questions.imageUrl with
        | some u => tryDeleteFile u fsFail files
        | none => files
      (.ok true, db2, files2)

/-- Response shape of `GET /admin/submissions/:id` (lines 154-159): the
submission row plus the `LEFT JOIN`ed test columns. -/
structure SubDetail where
  sub : SubRec
  title : String
  questions : Option Questions
  answerKey : Option (List (String × ℕ))
deriving DecidableEq, Repr

/-- `GET /admin/submissions/:id` (lines 135-164): select the submission with a
`LEFT JOIN` on its test, 404 when the submission is absent; the reported
title falls back to `"(deleted test)"` when the joined title is null (test
deleted) or empty (JavaScript `||` on a falsy string). -/
def getSubmissionHandler (db : DB) (sid : String) : Except (ℕ × String) SubDetail :=
  match db.submissions.find? (fun s => s.sid == sid) with
  | none => .error (404, "not found")
  | some s =>
    let joined := match s.testId with
      | none => none
      | some tid => findTest db tid
    .ok { sub := s
          title := match joined with
            | some t => if t.title = "" then "(deleted test)" else t.title
            | none => "(deleted test)"
          questions := joined.map (fun t => t.questions)
          answerKey := joined.map (fun t => t.answerKey) }

/-- `POST /admin/tests/upload` (lines 257-312).  `file` is the stored filename
of the uploaded image (`none` when no file was attached), `newId` and
`createdAt` stand for the database-generated id and timestamp. -/
def uploadTestHandler (db : DB) (newId : String) (createdAt : ℕ) (file : Option String)
    (subject level : String) (title : Option String) (numQ choicesC : Option ℤ)
    (answerKeyRaw : Option String) : Except (ℕ × String) TestRec × DB :=
  match file with
  | none => (.error (400, "image is required"), db)
  | some f =>
    if subject = "" ∨ level = "" then
      (.error (400, "subject and level are required"), db)
    else
      match numQ with
      | none => (.error (400, "num_questions must be 1-200"), db)
      | some n =>
        if ¬(1 ≤ n ∧ n ≤ 200) then (.error (400, "num_questions must be 1-200"), db)
        else
          -- `parseInt(choices_count, 10) || 5`: NaN and 0 both fall back to 5.
          let c : ℤ := match choicesC with
            | none => 5
            | some v => if v = 0 then 5 else v
          if ¬(c = 4 ∨ c = 5) then (.error (400, "choices_count must be 4 or 5"), db)
          else
            let letters := lettersFor c.toNat
            match encodeAnswerKey n.toNat letters (normalizeKey (answerKeyRaw.getD "")) with
            | .error e => (.error (400, e), db)
            | .ok m =>
              let imageUrl := "/uploads/" ++ f
              let questions : Questions :=
                { qtype := "image", imageUrl := some imageUrl, numQuestions := n.toNat
                  choicesCount := c.toNat, choices := letters }
              -- `title || `${subject.toUpperCase()} ${level} Test``  (falsy fallback)
              let titleV := match title with
                | some t => if t = "" then subject.toUpper ++ " " ++ level ++ " Test" else t
                | none => subject.toUpper ++ " " ++ level ++ " Test"
              let rec0 : TestRec :=
                { tid := newId, subject := subject, level := level, title := titleV
                  questions := questions, answerKey := m, createdAt := createdAt }
              (.ok rec0, { db with tests := db.tests ++ [rec0] })

/-- The new choice count of the edit handler (lines 336-337): the request
value when the field is (truthily) present, otherwise the stored one, with
the stored `0 → 5` fallback of `Number(...) || 5`. -/
def editNewChoices (q : Questions) (choicesC : Option ℤ) : ℤ :=
  match choicesC with
  | none => if q.choicesCount = 0 then 5 else (q.choicesCount : ℤ)
  | some v => v

/-- The new question count of the edit handler (lines 343-344): the request
value when present, otherwise the stored one. -/
def editNewN (q : Questions) (numQ : Option ℤ) : ℤ :=
  match numQ with
  | none => (q.numQuestions : ℤ)
  | some v => v

/-- `PUT /admin/tests/:id` (lines 317-404): select (404), only image tests
editable (400), validate the new choice count and question count, re-encode
the answer key exactly when one was supplied (otherwise keep the stored map,
line 349), apply the image remove/replace steps, and `UPDATE` the row with
`?? existing` fallbacks for subject/level/title. -/
def editTestHandler (db : DB) (tid : String) (title subject level : Option String)
    (numQ choicesC : Option ℤ) (answerKeyRaw : Option String)
    (removeImage : Option String) (file : Option String) (fsFail : Bool)
    (files : List String) : Except (ℕ × String) TestRec × DB × List String :=
  match findTest db tid with
  | none => (.error (404, "test not found"), db, files)
  | some t =>
    let q := t.questions
    if q.qtype ≠ "image" then
      (.error (400, "Only image tests supported for editing right now."), db, files)
    else
      let newChoicesCount := editNewChoices q choicesC
      if ¬(newChoicesCount = 4 ∨ newChoicesCount = 5) then
        (.error (400, "choices_count must be 4 or 5"), db, files)
      else
        let letters := lettersFor newChoicesCount.toNat
        let newN := editNewN q numQ
        if ¬(1 ≤ newN ∧ newN ≤ 200) then
          (.error (400, "num_questions must be 1-200"), db, files)
        else
          let encoded : Except String (List (String × ℕ)) :=
            match answerKeyRaw with
            | none => .ok t.answerKey
            | some raw => encodeAnswerKey newN.toNat letters (normalizeKey raw)
          match encoded with
          | .error e => (.error (400, e), db, files)
          | .ok newAnswerMap =>
            let wantsRemove := lowerAscii (removeImage.getD "") == "true"
            let step1 : Option String × List String :=
              if wantsRemove then
                match q.imageUrl with
                | some u => (none, tryDeleteFile u fsFail files)
                | none => (none, files)
              else (q.imageUrl, files)
            let step2 : Option String × List String :=
              match file with
              | some f =>
                (some ("/uploads/" ++ f),
                 match step1.1 with
                 | some u => tryDeleteFile u fsFail step1.2
                 | none => step1.2)
              | none => step1
            let updatedQuestions : Questions :=
              { q with numQuestions := newN.toNat, choicesCount := newChoicesCount.toNat
                       choices := letters, imageUrl := step2.1 }
            let newRec : TestRec :=
              { t with subject := subject.getD t.subject, level := level.getD t.level
                       title := title.getD t.title, questions := updatedQuestions
                       answerKey := newAnswerMap }
            let db2 : DB :=
              { db with tests := db.tests.map (fun x => if x.tid == tid then newRec else x) }
            (.ok newRec, db2, step2.2)

/-- `PUT /admin/tests/:id/image` (lines 410-439): require a file, select the
test (404), persist the new image URL with an `UPDATE`, and only after that
succeeds delete the previously referenced asset (line 432).  `persistOk`
models whether the `UPDATE` query succeeds; its failure is caught and
reported as a 500 before any file deletion happens. -/
def replaceImageHandler (db : DB) (tid : String) (file : Option String)
    (persistOk : Bool) (fsFail : Bool) (files : List String) :
    Except (ℕ × String) (String × String) × DB × List String :=
  match file with
  | none => (.error (400, "image is required"), db, files)
  | some f =>
    match findTest db tid with
    | none => (.error (404, "test not found"), db, files)
    | some t =>
      let oldUrl := t.questions.imageUrl
      let newUrl := "/uploads/" ++ f
      if persistOk then
        let newRec : TestRec := { t with questions := { t.questions with imageUrl := some newUrl } }
        let db2 : DB :=
          { db with tests := db.tests.map (fun x => if x.tid == tid then newRec else x) }
        let files2 := match oldUrl with
          | some u => tryDeleteFile u fsFail files
          | none => files
        (.ok (tid, newUrl), db2, files2)
      else (.error (500, "failed to replace image"), db, files)

/-- `ORDER BY created_at DESC LIMIT 1` over a nonempty match list: an element
with maximal `created_at` (ties broken arbitrarily by the database; this
model keeps the first maximum). -/
def latestOf (t : TestRec) (ts : List TestRec) : TestRec :=
  ts.foldl (fun best x => if best.createdAt < x.createdAt then x else best) t

/-- The rows matching `WHERE subject = $1 AND level = $2`. -/
def testsMatching (db : DB) (subject level : String) : List TestRec :=
  db.tests.filter (fun t => t.subject == subject && t.level == level)

/-- `GET /tests?subject&level&pick` (lines 475-507): trim the query values,
400 when either is empty, 404 when no test matches, otherwise one matching
row — the latest for `pick=latest`, else (`pick=random` is the default and
any other value also falls through to it) `ORDER BY random() LIMIT 1`.
`random()` draws independent uniform keys, so the selected row is uniform on
the match list; the draw is modelled by the index `r` taken modulo the
number of matches. -/
def getTestsHandler (db : DB) (subject level pick : String) (r : ℕ) :
    Except (ℕ × String) TestRec :=
  let subj := jsTrim subject
  let lev := jsTrim level
  if subj = "" ∨ lev = "" then .error (400, "subject and level are required")
  else
    match testsMatching db subj lev with
    | [] => .error (404, "No tests found for that subject/level")
    | t :: ts =>
      if pick = "latest" then .ok (latestOf t ts)
      else .ok ((t :: ts).getD (r % (ts.length + 1)) t)

/-- Lookup semantics of the request's `answers` value inside the grading
condition `answers && answers[qid] === correctIdx`: a null/absent `answers`
object never matches. -/
def ansSem (answers : Option (List (String × ℤ))) : String → Option ℤ :=
  match answers with
  | none => fun _ => none
  | some l => lookupAns l

/-- `POST /submissions` (lines 512-559): require the identity fields, select
the test's answer key (404 when the test is absent), run the grading loop,
compute the binary64 score, and insert the submission row (with the
`answers || {}` and `subject || ""` fallbacks). -/
def submitHandler (db : DB) (newId : String) (now : ℕ) (testId name grade email phone : String)
    (subject level : Option String) (answers : Option (List (String × ℤ))) :
    Except (ℕ × String) (String × ℕ × ℕ) × DB :=
  if testId = "" ∨ name = "" ∨ grade = "" ∨ email = "" ∨ phone = "" then
    (.error (400, "missing required fields"), db)
  else
    match findTest db testId with
    | none => (.error (404, "test not found"), db)
    | some t =>
      let counts := gradeCounts t.answerKey (ansSem answers)
      let score := jsScore counts.1 counts.2
      let sub : SubRec :=
        { sid := newId, testId := some testId, name := name, grade := grade
          email := email, phone := phone, subject := subject.getD ""
          level := level.getD "", answers := answers.getD [], score := score
          submittedAt := now }
      (.ok (newId, score, now), { db with submissions := db.submissions ++ [sub] })

example : encodeAnswerKey 3 (lettersFor 4) (normalizeKey "BAD")
    = .ok [("q1", 1), ("q2", 0), ("q3", 3)] := by decide
example : encodeAnswerKey 3 (lettersFor 4) (normalizeKey " b a d ")
    = .ok [("q1", 1), ("q2", 0), ("q3", 3)] := by decide
example : encodeAnswerKey 3 (lettersFor 4) (normalizeKey "BAE")
    = .error "answer_key must use only ABCD" := by decide
example : encodeAnswerKey 3 (lettersFor 4) (normalizeKey "BA")
    = .error "answer_key must be length 3" := by decide

def demoQuestions : Questions :=
  { qtype := "image", imageUrl := some "/uploads/1.png", numQuestions := 3
    choicesCount := 4, choices := ['A', 'B', 'C', 'D'] }

def demoTest : TestRec :=
  { tid := "t1", subject := "english", level := "beginner", title := "T"
    questions := demoQuestions, answerKey := [("q1", 1), ("q2", 0), ("q3", 3)]
    createdAt := 5 }

def demoSub : SubRec :=
  { sid := "s1", testId := some "t1", name := "n", grade := "g", email := "e"
    phone := "p", subject := "english", level := "beginner"
    answers := [("q1", 1)], score := 33, submittedAt := 6 }

def demoDB : DB := { tests := [demoTest], submissions := [demoSub] }

example : (deleteTestHandler demoDB "t1" false ["uploads/1.png"]).1
    = .error (500, "failed to delete test") := by decide
example : (getTestsHandler demoDB " english " "beginner" "latest" 0) = .ok demoTest := by
  decide
example : (getTestsHandler demoDB "english" "beginner" "random" 3) = .ok demoTest := by
  decide
example : (submitHandler demoDB "s2" 9 "t1" "n" "g" "e" "p" none none
    (some [("q1", 1), ("q2", 0), ("q3", 0)])).1 = .ok ("s2", 67, 9) := by decide
example : (editTestHandler demoDB "t1" none none none none none none (some "TRUE") none
    false ["uploads/1.png"]).2.2 = [] := by decide

/-! ### Arithmetic lemmas about the rounding primitives -/

theorem div_le_rneDiv (a b : ℕ) : a / b ≤ rneDiv a b := by
  simp only [rneDiv]
  split_ifs <;> omega

theorem rneDiv_le_div_succ (a b : ℕ) : rneDiv a b ≤ a / b + 1 := by
  simp only [rneDiv]
  split_ifs <;> omega

theorem rneDiv_le (a b N : ℕ) (hb : 0 < b) (h : a ≤ b * N) : rneDiv a b ≤ N := by
  have hq : a / b ≤ N := Nat.div_le_of_le_mul h
  rcases Nat.lt_or_ge (a / b) N with hlt | hge
  · have := rneDiv_le_div_succ a b
    omega
  · have hqN : a / b = N := le_antisymm hq hge
    have hmod : a % b + b * (a / b) = a := Nat.mod_add_div a b
    rw [hqN] at hmod
    have hr : a % b = 0 := by omega
    simp only [rneDiv]
    rw [hqN]
    split_ifs <;> omega

theorem le_rneDiv (a b N : ℕ) (hb : 0 < b) (h : b * N ≤ a) : N ≤ rneDiv a b := by
  have hq : N ≤ a / b := (Nat.le_div_iff_mul_le hb).2 (by rwa [Nat.mul_comm] at h)
  have := div_le_rneDiv a b
  omega

theorem rneDiv_mono (a b c d : ℕ) (hb : 0 < b) (hd : 0 < d) (h : a * d ≤ c * b) :
    rneDiv a b ≤ rneDiv c d := by
  have hqa : a % b + b * (a / b) = a := Nat.mod_add_div a b
  have hqc : c % d + d * (c / d) = c := Nat.mod_add_div c d
  have hra : a % b < b := Nat.mod_lt a hb
  have hrc : c % d < d := Nat.mod_lt c hd
  have hq : a / b ≤ c / d := by
    refine (Nat.le_div_iff_mul_le hd).2 ?_
    have h1 : (a / b) * b * d ≤ a * d := by
      have := Nat.div_mul_le_self a b
      exact Nat.mul_le_mul_right d this
    have h2 : (a / b) * d * b ≤ c * b := by
      calc (a / b) * d * b = (a / b) * b * d := by ring
        _ ≤ a * d := h1
        _ ≤ c * b := h
    exact Nat.le_of_mul_le_mul_right h2 hb
  rcases Nat.lt_or_ge (a / b) (c / d) with hlt | hge
  · have h1 := rneDiv_le_div_succ a b
    have h2 := div_le_rneDiv c d
    omega
  · have hqq : a / b = c / d := le_antisymm hq hge
    -- same integer part: compare the remainder fractions (a%b)/b and (c%d)/d
    have hrr : (a % b) * d ≤ (c % d) * b := by
      have expand : (a % b + b * (a / b)) * d ≤ (c % d + d * (c / d)) * b := by
        rw [hqa, hqc]; exact h
      have e1 : (a % b + b * (a / b)) * d = (a % b) * d + (a / b) * b * d := by ring
      have e2 : (c % d + d * (c / d)) * b = (c % d) * b + (c / d) * b * d := by
        ring
      rw [e1, e2, hqq] at expand
      omega
    simp only [rneDiv]
    split_ifs with h1 h2 h3 h4 h5 h6 h7 h8 h9 h10 h11 h12 <;> try omega
    all_goals {
      exfalso
      -- each bad branch pair contradicts (a%b)*d ≤ (c%d)*b
      have t1 : 2 * (a % b) * d ≤ 2 * (c % d) * b := by
        calc 2 * (a % b) * d = 2 * ((a % b) * d) := by ring
          _ ≤ 2 * ((c % d) * b) := Nat.mul_le_mul_left 2 hrr
          _ = 2 * (c % d) * b := by ring
      have t2 : b * d ≤ 2 * (a % b) * d := by
        have : b ≤ 2 * (a % b) := by omega
        exact Nat.mul_le_mul_right d this
      have t3 : 2 * (c % d) * b ≤ d * b := by
        have : 2 * (c % d) ≤ d := by omega
        exact Nat.mul_le_mul_right b this
      -- so b * d = 2 * (a % b) * d = 2 * (c % d) * b = d * b
      have e4 : 2 * (a % b) * d = b * d := by
        have : 2 * (a % b) * d ≤ b * d := by
          calc 2 * (a % b) * d ≤ 2 * (c % d) * b := t1
            _ ≤ d * b := t3
            _ = b * d := by ring
        omega
      have e5 : 2 * (c % d) * b = d * b := by
        have h6' : d * b ≤ 2 * (c % d) * b := by
          calc d * b = b * d := by ring
            _ ≤ 2 * (a % b) * d := t2
            _ ≤ 2 * (c % d) * b := t1
        omega
      have hb2 : 2 * (a % b) = b := Nat.eq_of_mul_eq_mul_right hd e4
      have hd2 : 2 * (c % d) = d := Nat.eq_of_mul_eq_mul_right hb e5
      omega }

theorem nlog2_spec : ∀ fuel n, 0 < n → n ≤ fuel →
    2 ^ nlog2 fuel n ≤ n ∧ n < 2 ^ (nlog2 fuel n + 1) := by
  intro fuel
  induction fuel with
  | zero => intro n h1 h2; omega
  | succ f ih =>
    intro n h1 h2
    by_cases hs : n < 2
    · have hn : n = 1 := by omega
      simp [nlog2, hs, hn]
    · have hrec : nlog2 (f + 1) n = nlog2 f (n / 2) + 1 := by
        simp [nlog2, hs]
      have hhalf := ih (n / 2) (by omega) (by omega)
      rw [hrec]
      rcases hhalf with ⟨hl, hr⟩
      constructor
      · have : 2 ^ (nlog2 f (n / 2) + 1) = 2 * 2 ^ nlog2 f (n / 2) := by ring
        rw [this]; omega
      · have : 2 ^ (nlog2 f (n / 2) + 1 + 1) = 2 * 2 ^ (nlog2 f (n / 2) + 1) := by ring
        rw [this]; omega

theorem nclog2_spec : ∀ fuel n, 0 < n → n ≤ fuel →
    n ≤ 2 ^ nclog2 fuel n ∧ 2 ^ nclog2 fuel n < 2 * n := by
  intro fuel
  induction fuel with
  | zero => intro n h1 h2; omega
  | succ f ih =>
    intro n h1 h2
    by_cases hs : n ≤ 1
    · have hn : n = 1 := by omega
      simp [nclog2, hn]
    · have hrec : nclog2 (f + 1) n = nclog2 f ((n + 1) / 2) + 1 := by
        simp [nclog2, hs]
      have hhalf := ih ((n + 1) / 2) (by omega) (by omega)
      rw [hrec]
      rcases hhalf with ⟨hl, hr⟩
      rcases Nat.eq_zero_or_pos (nclog2 f ((n + 1) / 2)) with hz | hp
      · rw [hz] at hl hr ⊢
        have e0 : (2:ℕ) ^ (0:ℕ) = 1 := pow_zero 2
        have e1 : (2:ℕ) ^ (0 + 1) = 2 := by norm_num
        rw [e0] at hl hr
        rw [e1]
        omega
      · obtain ⟨K, hK⟩ : ∃ K, nclog2 f ((n + 1) / 2) = K + 1 :=
          ⟨nclog2 f ((n + 1) / 2) - 1, by omega⟩
        rw [hK] at hl hr ⊢
        have e1 : (2:ℕ) ^ (K + 1) = 2 * 2 ^ K := by ring
        have e2 : (2:ℕ) ^ (K + 1 + 1) = 2 * 2 ^ (K + 1) := by ring
        rw [e1] at hl hr
        rw [e2, e1]
        omega

theorem two_zpow_pos (e : ℤ) : (0:ℚ) < 2 ^ e := zpow_pos (by norm_num) e

theorem two_zpow_natCast (L : ℕ) : (2:ℚ) ^ (L : ℤ) = ((2 ^ L : ℕ) : ℚ) := by
  rw [zpow_natCast]; push_cast; ring

/-- Bracketing property of `ratLog2`: it is the floor of the base-2 logarithm
of `a / b`. -/
theorem ratLog2_spec (a b : ℕ) (ha : 0 < a) (hb : 0 < b) :
    (2:ℚ) ^ ratLog2 a b ≤ (a:ℚ) / b ∧ (a:ℚ) / b < 2 ^ (ratLog2 a b + 1) := by
  have hbq : (0:ℚ) < (b:ℚ) := by exact_mod_cast hb
  by_cases hba : b ≤ a
  · -- `a / b ≥ 1`: the value is `nlog2` of the integer quotient
    have hlog : ratLog2 a b = (nlog2 (a / b) (a / b) : ℤ) := by
      simp [ratLog2, hba]
    have hn : 0 < a / b := Nat.one_le_div_iff hb |>.2 hba
    obtain ⟨hl, hr⟩ := nlog2_spec (a / b) (a / b) hn le_rfl
    rw [hlog]
    constructor
    · rw [two_zpow_natCast]
      rw [le_div_iff hbq]
      have hnat : 2 ^ nlog2 (a / b) (a / b) * b ≤ a := by
        calc 2 ^ nlog2 (a / b) (a / b) * b ≤ (a / b) * b := Nat.mul_le_mul_right b hl
          _ ≤ a := Nat.div_mul_le_self a b
      exact_mod_cast hnat
    · have hcast : (2:ℚ) ^ ((nlog2 (a / b) (a / b) : ℤ) + 1)
          = ((2 ^ (nlog2 (a / b) (a / b) + 1) : ℕ) : ℚ) := by
        have : ((nlog2 (a / b) (a / b) : ℤ) + 1) = ((nlog2 (a / b) (a / b) + 1 : ℕ) : ℤ) := by
          push_cast; ring
        rw [this, two_zpow_natCast]
      rw [hcast, div_lt_iff hbq]
      have hmod : a % b + b * (a / b) = a := Nat.mod_add_div a b
      have hmlt : a % b < b := Nat.mod_lt a hb
      have hnat : a < 2 ^ (nlog2 (a / b) (a / b) + 1) * b := by
        have h1 : a < (a / b + 1) * b := by
          have : (a / b + 1) * b = b * (a / b) + b := by ring
          omega
        have h2 : (a / b + 1) * b ≤ 2 ^ (nlog2 (a / b) (a / b) + 1) * b :=
          Nat.mul_le_mul_right b (by omega)
        omega
      exact_mod_cast hnat
  · -- `a / b < 1`: the value is minus the ceiling log of `⌈b/a⌉`
    have hab : a < b := Nat.lt_of_not_le hba
    have hlog : ratLog2 a b = -(nclog2 ((b + a - 1) / a) ((b + a - 1) / a) : ℤ) := by
      simp [ratLog2, hba]
    have hdm := Nat.div_add_mod (b + a - 1) a
    have hml : (b + a - 1) % a < a := Nat.mod_lt (b + a - 1) ha
    have hn2 : 2 ≤ (b + a - 1) / a := by
      refine (Nat.le_div_iff_mul_le ha).2 ?_
      omega
    obtain ⟨hk1, hk2⟩ := nclog2_spec ((b + a - 1) / a) ((b + a - 1) / a) (by omega) le_rfl
    have hK1 : 1 ≤ nclog2 ((b + a - 1) / a) ((b + a - 1) / a) := by
      by_contra hc
      have h0 : nclog2 ((b + a - 1) / a) ((b + a - 1) / a) = 0 := by omega
      rw [h0, pow_zero] at hk1
      omega
    rw [hlog]
    have hbn : b ≤ a * ((b + a - 1) / a) := by omega
    constructor
    · have hzneg : (2:ℚ) ^ (-(nclog2 ((b + a - 1) / a) ((b + a - 1) / a) : ℤ))
          = 1 / ((2 ^ nclog2 ((b + a - 1) / a) ((b + a - 1) / a) : ℕ) : ℚ) := by
        rw [zpow_neg, two_zpow_natCast, one_div]
      rw [hzneg, div_le_div_iff (by positivity) hbq, one_mul]
      have hnat : b ≤ a * 2 ^ nclog2 ((b + a - 1) / a) ((b + a - 1) / a) := by
        calc b ≤ a * ((b + a - 1) / a) := hbn
          _ ≤ a * 2 ^ nclog2 ((b + a - 1) / a) ((b + a - 1) / a) :=
            Nat.mul_le_mul_left a hk1
      exact_mod_cast hnat
    · obtain ⟨K, hKe⟩ : ∃ K, nclog2 ((b + a - 1) / a) ((b + a - 1) / a) = K + 1 :=
        ⟨nclog2 ((b + a - 1) / a) ((b + a - 1) / a) - 1, by omega⟩
      rw [hKe] at hk1 hk2
      have hgoalcast : (2:ℚ) ^ (-((K + 1 : ℕ) : ℤ) + 1) = 1 / ((2 ^ K : ℕ) : ℚ) := by
        have he : (-((K + 1 : ℕ) : ℤ) + 1) = -(K : ℤ) := by push_cast; ring
        rw [he, zpow_neg, two_zpow_natCast, one_div]
      rw [hKe, hgoalcast, div_lt_div_iff hbq (by positivity), one_mul]
      have hpow : (2:ℕ) ^ (K + 1) = 2 * 2 ^ K := by ring
      rw [hpow] at hk2
      have hstep : a * 2 ^ K ≤ a * ((b + a - 1) / a - 1) :=
        Nat.mul_le_mul_left a (by omega)
      have hid : a * ((b + a - 1) / a - 1) + a = a * ((b + a - 1) / a) := by
        have hone : (b + a - 1) / a - 1 + 1 = (b + a - 1) / a := by omega
        calc a * ((b + a - 1) / a - 1) + a = a * ((b + a - 1) / a - 1 + 1) := by ring
          _ = a * ((b + a - 1) / a) := by rw [hone]
      have hnat : a * 2 ^ K < b := by omega
      exact_mod_cast hnat

/-! ### Value-level lemmas about `rnd53` -/

/-- The rational value of a mantissa/scale pair. -/
def dval (p : ℕ × ℤ) : ℚ := (p.1 : ℚ) / 2 ^ p.2

theorem two_zpow_toNat (s : ℤ) (hs : 0 ≤ s) : (2:ℚ) ^ s = ((2 ^ s.toNat : ℕ) : ℚ) := by
  conv_lhs => rw [← Int.toNat_of_nonneg hs]
  exact two_zpow_natCast s.toNat

theorem rnd53_snd (a b : ℕ) : (rnd53 a b).2 = 52 - ratLog2 a b := by
  simp only [rnd53]
  split_ifs <;> rfl

theorem rnd53_fst_lower (a b : ℕ) (ha : 0 < a) (hb : 0 < b) :
    2 ^ 52 ≤ (rnd53 a b).1 := by
  obtain ⟨hbr, _⟩ := ratLog2_spec a b ha hb
  have hbq : (0:ℚ) < (b:ℚ) := by exact_mod_cast hb
  simp only [rnd53]
  split_ifs with hs
  · -- scale `s = 52 - e ≥ 0`: mantissa is `rneDiv (a * 2^s) b`
    refine le_rneDiv _ b _ hb ?_
    have hq : (b:ℚ) * ((2 ^ 52 : ℕ) : ℚ) ≤ (a:ℚ) * ((2 ^ (52 - ratLog2 a b).toNat : ℕ) : ℚ) := by
      have h1 : (b:ℚ) * 2 ^ ratLog2 a b ≤ a := by
        rw [le_div_iff₀ hbq] at hbr
        calc (b:ℚ) * 2 ^ ratLog2 a b = 2 ^ ratLog2 a b * b := by ring
          _ ≤ a := hbr
      have h2 : (b:ℚ) * 2 ^ ratLog2 a b * 2 ^ (52 - ratLog2 a b)
          ≤ (a:ℚ) * 2 ^ (52 - ratLog2 a b) :=
        mul_le_mul_of_nonneg_right h1 (le_of_lt (two_zpow_pos _))
      calc (b:ℚ) * ((2 ^ 52 : ℕ) : ℚ) = (b:ℚ) * 2 ^ ((52 : ℕ) : ℤ) := by
            rw [two_zpow_natCast]
        _ = (b:ℚ) * 2 ^ ratLog2 a b * 2 ^ (52 - ratLog2 a b) := by
            rw [mul_assoc, ← zpow_add₀ (by norm_num : (2:ℚ) ≠ 0)]
            norm_num
        _ ≤ (a:ℚ) * 2 ^ (52 - ratLog2 a b) := h2
        _ = (a:ℚ) * ((2 ^ (52 - ratLog2 a b).toNat : ℕ) : ℚ) := by
            rw [two_zpow_toNat _ hs]
    exact_mod_cast hq
  · -- scale `s < 0`, i.e. `e > 52`: mantissa is `rneDiv a (b * 2^(e-52))`
    push_neg at hs
    refine le_rneDiv _ _ _ (by positivity) ?_
    have hq : ((b * 2 ^ (-(52 - ratLog2 a b)).toNat : ℕ) : ℚ) * ((2 ^ 52 : ℕ) : ℚ)
        ≤ (a:ℚ) := by
      have h1 : (b:ℚ) * 2 ^ ratLog2 a b ≤ a := by
        rw [le_div_iff₀ hbq] at hbr
        calc (b:ℚ) * 2 ^ ratLog2 a b = 2 ^ ratLog2 a b * b := by ring
          _ ≤ a := hbr
      calc ((b * 2 ^ (-(52 - ratLog2 a b)).toNat : ℕ) : ℚ) * ((2 ^ 52 : ℕ) : ℚ)
          = (b:ℚ) * (((2 ^ (-(52 - ratLog2 a b)).toNat : ℕ) : ℚ) * ((2 ^ 52 : ℕ) : ℚ)) := by
            push_cast; ring
        _ = (b:ℚ) * (2 ^ (-(52 - ratLog2 a b)) * 2 ^ ((52 : ℕ) : ℤ)) := by
            rw [two_zpow_natCast, two_zpow_toNat _ (by omega)]
        _ = (b:ℚ) * 2 ^ ratLog2 a b := by
            rw [← zpow_add₀ (by norm_num : (2:ℚ) ≠ 0)]
            norm_num
        _ ≤ a := h1
    exact_mod_cast hq

theorem rnd53_fst_upper (a b : ℕ) (ha : 0 < a) (hb : 0 < b) :
    (rnd53 a b).1 ≤ 2 ^ 53 := by
  obtain ⟨_, hbr⟩ := ratLog2_spec a b ha hb
  have hbq : (0:ℚ) < (b:ℚ) := by exact_mod_cast hb
  have h1 : (a:ℚ) < 2 ^ (ratLog2 a b + 1) * b := by
    rwa [div_lt_iff₀ hbq] at hbr
  simp only [rnd53]
  split_ifs with hs
  · refine rneDiv_le _ b _ hb ?_
    have hq : (a:ℚ) * ((2 ^ (52 - ratLog2 a b).toNat : ℕ) : ℚ) < (b:ℚ) * ((2 ^ 53 : ℕ) : ℚ) := by
      calc (a:ℚ) * ((2 ^ (52 - ratLog2 a b).toNat : ℕ) : ℚ)
          = (a:ℚ) * 2 ^ (52 - ratLog2 a b) := by rw [two_zpow_toNat _ hs]
        _ < 2 ^ (ratLog2 a b + 1) * b * 2 ^ (52 - ratLog2 a b) := by
            exact mul_lt_mul_of_pos_right h1 (two_zpow_pos _)
        _ = (b:ℚ) * (2 ^ (ratLog2 a b + 1) * 2 ^ (52 - ratLog2 a b)) := by ring
        _ = (b:ℚ) * 2 ^ ((53 : ℕ) : ℤ) := by
            have hexp : ratLog2 a b + 1 + (52 - ratLog2 a b) = ((53 : ℕ) : ℤ) := by
              push_cast; ring
            rw [← zpow_add₀ (by norm_num : (2:ℚ) ≠ 0), hexp]
        _ = (b:ℚ) * ((2 ^ 53 : ℕ) : ℚ) := by rw [two_zpow_natCast]
    have := hq.le
    exact_mod_cast this
  · push_neg at hs
    refine rneDiv_le _ _ _ (by positivity) ?_
    have hq : (a:ℚ) < ((b * 2 ^ (-(52 - ratLog2 a b)).toNat : ℕ) : ℚ) * ((2 ^ 53 : ℕ) : ℚ) := by
      calc (a:ℚ) < 2 ^ (ratLog2 a b + 1) * b := h1
        _ = (b:ℚ) * (2 ^ (-(52 - ratLog2 a b)) * 2 ^ ((53 : ℕ) : ℤ)) := by
            rw [← zpow_add₀ (by norm_num : (2:ℚ) ≠ 0)]
            norm_num
            ring_nf
        _ = ((b * 2 ^ (-(52 - ratLog2 a b)).toNat : ℕ) : ℚ) * ((2 ^ 53 : ℕ) : ℚ) := by
            rw [two_zpow_toNat _ (by omega), two_zpow_natCast]
            push_cast
            ring
    have := hq.le
    exact_mod_cast this

theorem dval_rnd53_eq (a b : ℕ) :
    dval (rnd53 a b) = ((rnd53 a b).1 : ℚ) / 2 ^ (52 - ratLog2 a b) := by
  rw [dval, rnd53_snd]

theorem dval_rnd53_lower (a b : ℕ) (ha : 0 < a) (hb : 0 < b) :
    (2:ℚ) ^ ratLog2 a b ≤ dval (rnd53 a b) := by
  rw [dval_rnd53_eq, le_div_iff₀ (two_zpow_pos _)]
  have hm := rnd53_fst_lower a b ha hb
  calc (2:ℚ) ^ ratLog2 a b * 2 ^ (52 - ratLog2 a b) = 2 ^ ((52 : ℕ) : ℤ) := by
        rw [← zpow_add₀ (by norm_num : (2:ℚ) ≠ 0)]
        norm_num
    _ = ((2 ^ 52 : ℕ) : ℚ) := two_zpow_natCast 52
    _ ≤ ((rnd53 a b).1 : ℚ) := by exact_mod_cast hm

theorem dval_rnd53_upper (a b : ℕ) (ha : 0 < a) (hb : 0 < b) :
    dval (rnd53 a b) ≤ (2:ℚ) ^ (ratLog2 a b + 1) := by
  rw [dval_rnd53_eq, div_le_iff₀ (two_zpow_pos _)]
  have hm := rnd53_fst_upper a b ha hb
  calc ((rnd53 a b).1 : ℚ) ≤ ((2 ^ 53 : ℕ) : ℚ) := by exact_mod_cast hm
    _ = 2 ^ ((53 : ℕ) : ℤ) := (two_zpow_natCast 53).symm
    _ = (2:ℚ) ^ (ratLog2 a b + 1) * 2 ^ (52 - ratLog2 a b) := by
        have hexp : ratLog2 a b + 1 + (52 - ratLog2 a b) = ((53 : ℕ) : ℤ) := by
          push_cast; ring
        rw [← zpow_add₀ (by norm_num : (2:ℚ) ≠ 0), hexp]

theorem ratLog2_le_of_le (a b N : ℕ) (ha : 0 < a) (hb : 0 < b) (hN : N ≤ 2 ^ 52)
    (h : (a:ℚ) / b ≤ N) : ratLog2 a b ≤ 52 := by
  obtain ⟨hbr, _⟩ := ratLog2_spec a b ha hb
  have hchain : (2:ℚ) ^ ratLog2 a b ≤ 2 ^ ((52 : ℕ) : ℤ) := by
    calc (2:ℚ) ^ ratLog2 a b ≤ (a:ℚ) / b := hbr
      _ ≤ (N : ℚ) := h
      _ ≤ ((2 ^ 52 : ℕ) : ℚ) := by exact_mod_cast hN
      _ = 2 ^ ((52 : ℕ) : ℤ) := (two_zpow_natCast 52).symm
  have := (zpow_le_zpow_iff_right₀ (by norm_num : (1:ℚ) < 2)).1 hchain
  omega

/-- A bound `a / b ≤ N` on the input survives binary64 rounding, because `N`
(being at most `2^52`) is itself representable. -/
theorem dval_rnd53_le (a b N : ℕ) (ha : 0 < a) (hb : 0 < b) (hN : N ≤ 2 ^ 52)
    (h : (a:ℚ) / b ≤ N) : dval (rnd53 a b) ≤ N := by
  have hs : 0 ≤ 52 - ratLog2 a b := by
    have := ratLog2_le_of_le a b N ha hb hN h
    omega
  have hbq : (0:ℚ) < (b:ℚ) := by exact_mod_cast hb
  have hab : a ≤ b * N := by
    have : (a:ℚ) ≤ (b:ℚ) * N := by
      rw [div_le_iff₀ hbq] at h
      calc (a:ℚ) ≤ (N:ℚ) * b := h
        _ = (b:ℚ) * N := by ring
    exact_mod_cast this
  have hkey : rnd53 a b = (rneDiv (a * 2 ^ (52 - ratLog2 a b).toNat) b, 52 - ratLog2 a b) := by
    simp only [rnd53]
    rw [if_pos hs]
  rw [dval, hkey]
  have hm : rneDiv (a * 2 ^ (52 - ratLog2 a b).toNat) b ≤ N * 2 ^ (52 - ratLog2 a b).toNat := by
    refine rneDiv_le _ b _ hb ?_
    calc a * 2 ^ (52 - ratLog2 a b).toNat ≤ (b * N) * 2 ^ (52 - ratLog2 a b).toNat :=
          Nat.mul_le_mul_right _ hab
      _ = b * (N * 2 ^ (52 - ratLog2 a b).toNat) := by ring
  rw [div_le_iff₀ (two_zpow_pos _)]
  calc (↑(rneDiv (a * 2 ^ (52 - ratLog2 a b).toNat) b) : ℚ)
      ≤ ((N * 2 ^ (52 - ratLog2 a b).toNat : ℕ) : ℚ) := by exact_mod_cast hm
    _ = (N:ℚ) * ((2 ^ (52 - ratLog2 a b).toNat : ℕ) : ℚ) := by push_cast; ring
    _ = (N:ℚ) * 2 ^ (52 - ratLog2 a b) := by rw [two_zpow_toNat _ hs]

/-- Binary64 rounding is monotone. -/
theorem dval_rnd53_mono (a b c d : ℕ) (ha : 0 < a) (hb : 0 < b) (hc : 0 < c) (hd : 0 < d)
    (h : (a:ℚ) / b ≤ (c:ℚ) / d) : dval (rnd53 a b) ≤ dval (rnd53 c d) := by
  have hbq : (0:ℚ) < (b:ℚ) := by exact_mod_cast hb
  have hdq : (0:ℚ) < (d:ℚ) := by exact_mod_cast hd
  obtain ⟨hbr1, hbr2⟩ := ratLog2_spec a b ha hb
  obtain ⟨hcr1, hcr2⟩ := ratLog2_spec c d hc hd
  have hee : ratLog2 a b ≤ ratLog2 c d := by
    have hx : (2:ℚ) ^ ratLog2 a b < 2 ^ (ratLog2 c d + 1) := by
      calc (2:ℚ) ^ ratLog2 a b ≤ (a:ℚ) / b := hbr1
        _ ≤ (c:ℚ) / d := h
        _ < 2 ^ (ratLog2 c d + 1) := hcr2
    have := (zpow_lt_zpow_iff_right₀ (by norm_num : (1:ℚ) < 2)).1 hx
    omega
  rcases lt_or_eq_of_le hee with hlt | heq
  · calc dval (rnd53 a b) ≤ 2 ^ (ratLog2 a b + 1) := dval_rnd53_upper a b ha hb
      _ ≤ (2:ℚ) ^ ratLog2 c d :=
          zpow_le_zpow_right₀ (by norm_num : (1:ℚ) ≤ 2) (by omega)
      _ ≤ dval (rnd53 c d) := dval_rnd53_lower c d hc hd
  · -- equal exponents: same scale on both sides, compare mantissas
    have hcross : a * d ≤ c * b := by
      have := (div_le_div_iff₀ hbq hdq).1 h
      exact_mod_cast this
    simp only [rnd53, ← heq]
    split_ifs with hs
    · simp only [dval]
      rw [div_le_div_iff₀ (two_zpow_pos _) (two_zpow_pos _)]
      have hm : rneDiv (a * 2 ^ (52 - ratLog2 a b).toNat) b
          ≤ rneDiv (c * 2 ^ (52 - ratLog2 a b).toNat) d := by
        refine rneDiv_mono _ b _ d hb hd ?_
        calc a * 2 ^ (52 - ratLog2 a b).toNat * d
            = (a * d) * 2 ^ (52 - ratLog2 a b).toNat := by ring
          _ ≤ (c * b) * 2 ^ (52 - ratLog2 a b).toNat := Nat.mul_le_mul_right _ hcross
          _ = c * 2 ^ (52 - ratLog2 a b).toNat * b := by ring
      have hmq : (↑(rneDiv (a * 2 ^ (52 - ratLog2 a b).toNat) b) : ℚ)
          ≤ (↑(rneDiv (c * 2 ^ (52 - ratLog2 a b).toNat) d) : ℚ) := by exact_mod_cast hm
      exact mul_le_mul_of_nonneg_right hmq (le_of_lt (two_zpow_pos _))
    · simp only [dval]
      rw [div_le_div_iff₀ (two_zpow_pos _) (two_zpow_pos _)]
      have hm : rneDiv a (b * 2 ^ (-(52 - ratLog2 a b)).toNat)
          ≤ rneDiv c (d * 2 ^ (-(52 - ratLog2 a b)).toNat) := by
        refine rneDiv_mono _ _ _ _ (by positivity) (by positivity) ?_
        calc a * (d * 2 ^ (-(52 - ratLog2 a b)).toNat)
            = (a * d) * 2 ^ (-(52 - ratLog2 a b)).toNat := by ring
          _ ≤ (c * b) * 2 ^ (-(52 - ratLog2 a b)).toNat := Nat.mul_le_mul_right _ hcross
          _ = c * (b * 2 ^ (-(52 - ratLog2 a b)).toNat) := by ring
      have hmq : (↑(rneDiv a (b * 2 ^ (-(52 - ratLog2 a b)).toNat)) : ℚ)
          ≤ (↑(rneDiv c (d * 2 ^ (-(52 - ratLog2 a b)).toNat)) : ℚ) := by exact_mod_cast hm
      exact mul_le_mul_of_nonneg_right hmq (le_of_lt (two_zpow_pos _))

/-- Every `rnd53dy` call is an `rnd53` call on a fraction with the same
value. -/
theorem rnd53dy_rep (A : ℕ) (s : ℤ) (hA : 0 < A) :
    ∃ p q : ℕ, 0 < p ∧ 0 < q ∧ rnd53dy A s = rnd53 p q ∧ (p:ℚ) / q = (A:ℚ) / 2 ^ s := by
  by_cases hs : 0 ≤ s
  · refine ⟨A, 2 ^ s.toNat, hA, Nat.pos_pow_of_pos _ (by norm_num), ?_, ?_⟩
    · simp only [rnd53dy]
      rw [if_pos hs]
    · rw [two_zpow_toNat s hs]
  · refine ⟨A * 2 ^ (-s).toNat, 1, by positivity, one_pos, ?_, ?_⟩
    · simp only [rnd53dy]
      rw [if_neg hs]
    · have hns : 0 ≤ -s := by omega
      rw [Nat.cast_one, div_one]
      calc ((A * 2 ^ (-s).toNat : ℕ) : ℚ) = (A:ℚ) * ((2 ^ (-s).toNat : ℕ) : ℚ) := by
            push_cast; ring
        _ = (A:ℚ) * 2 ^ (-s) := by rw [two_zpow_toNat _ hns]
        _ = (A:ℚ) / 2 ^ s := by
            rw [zpow_neg, div_eq_mul_inv]

/-- `roundDy` is `Math.round` on the value: the floor of value plus one half. -/
theorem roundDy_eq_floor (p : ℕ × ℤ) : roundDy p = ⌊dval p + 1 / 2⌋₊ := by
  rcases p with ⟨m, s⟩
  simp only [roundDy, dval]
  split_ifs with hs
  · have hval : (m:ℚ) / 2 ^ s + 1 / 2
        = ((2 * m + 2 ^ s.toNat : ℕ) : ℚ) / ((2 ^ (s.toNat + 1) : ℕ) : ℚ) := by
      rw [two_zpow_toNat s hs]
      have h1 : ((2 ^ s.toNat : ℕ) : ℚ) ≠ 0 := by positivity
      have h2 : ((2 ^ (s.toNat + 1) : ℕ) : ℚ) ≠ 0 := by positivity
      field_simp
      ring
    rw [hval, Nat.floor_div_nat, Nat.floor_natCast]
  · have hval : (m:ℚ) / 2 ^ s + 1 / 2 = ((m * 2 ^ (-s).toNat : ℕ) : ℚ) + 1 / 2 := by
      have hns : 0 ≤ -s := by omega
      rw [eq_comm]
      congr 1
      calc ((m * 2 ^ (-s).toNat : ℕ) : ℚ) = (m:ℚ) * ((2 ^ (-s).toNat : ℕ) : ℚ) := by
            push_cast; ring
        _ = (m:ℚ) * 2 ^ (-s) := by rw [two_zpow_toNat _ hns]
        _ = (m:ℚ) / 2 ^ s := by rw [zpow_neg, div_eq_mul_inv]
    rw [hval, eq_comm]
    rw [Nat.floor_eq_iff (by positivity)]
    constructor
    · exact le_add_of_nonneg_right (by norm_num)
    · push_cast
      linarith

theorem roundDy_mono (p q : ℕ × ℤ) (h : dval p ≤ dval q) : roundDy p ≤ roundDy q := by
  rw [roundDy_eq_floor, roundDy_eq_floor]
  exact Nat.floor_le_floor (by linarith)

theorem roundDy_le (p : ℕ × ℤ) (N : ℕ) (h : dval p ≤ N) : roundDy p ≤ N := by
  rw [roundDy_eq_floor]
  have h1 : ⌊dval p + 1 / 2⌋₊ ≤ ⌊(N:ℚ) + 1 / 2⌋₊ := Nat.floor_le_floor (by linarith)
  have h2 : ⌊(N:ℚ) + 1 / 2⌋₊ = N := by
    rw [Nat.floor_eq_iff (by positivity)]
    constructor
    · linarith
    · linarith
  omega

/-! ### The score function: monotonicity and range -/

theorem jsScore_mono (c c' t : ℕ) (h : c ≤ c') : jsScore c t ≤ jsScore c' t := by
  by_cases hc : c = 0
  · simp [jsScore, hc]
  · have hc' : c' ≠ 0 := by omega
    have hcp : 0 < c := Nat.pos_of_ne_zero hc
    have hcp' : 0 < c' := Nat.pos_of_ne_zero hc'
    have hT : 0 < max t 1 := by omega
    have hTq : (0:ℚ) < ((max t 1 : ℕ) : ℚ) := by exact_mod_cast hT
    simp only [jsScore, if_neg hc, if_neg hc']
    have h1 : dval (rnd53 c (max t 1)) ≤ dval (rnd53 c' (max t 1)) := by
      refine dval_rnd53_mono c (max t 1) c' (max t 1) hcp hT hcp' hT ?_
      rw [div_le_div_iff₀ hTq hTq]
      have : (c:ℚ) ≤ (c':ℚ) := by exact_mod_cast h
      exact mul_le_mul_of_nonneg_right this (le_of_lt hTq)
    have hm1 : 0 < (rnd53 c (max t 1)).1 := by
      have := rnd53_fst_lower c (max t 1) hcp hT
      positivity
    have hm1' : 0 < (rnd53 c' (max t 1)).1 := by
      have := rnd53_fst_lower c' (max t 1) hcp' hT
      positivity
    obtain ⟨p, q, hp, hq, heq, hv⟩ :=
      rnd53dy_rep ((rnd53 c (max t 1)).1 * 100) (rnd53 c (max t 1)).2 (by positivity)
    obtain ⟨p', q', hp', hq', heq', hv'⟩ :=
      rnd53dy_rep ((rnd53 c' (max t 1)).1 * 100) (rnd53 c' (max t 1)).2 (by positivity)
    refine roundDy_mono _ _ ?_
    rw [heq, heq']
    refine dval_rnd53_mono p q p' q' hp hq hp' hq' ?_
    rw [hv, hv']
    have hrw : ∀ a b : ℕ, ((((rnd53 a b).1 * 100 : ℕ)) : ℚ) / 2 ^ (rnd53 a b).2
        = 100 * dval (rnd53 a b) := by
      intro a b
      rw [dval]
      push_cast
      ring
    rw [hrw, hrw]
    linarith

theorem jsScore_le_100 (c t : ℕ) (h : c ≤ t) : jsScore c t ≤ 100 := by
  by_cases hc : c = 0
  · simp [jsScore, hc]
  · have hcp : 0 < c := Nat.pos_of_ne_zero hc
    have hT : 0 < max t 1 := by omega
    have hcT : c ≤ max t 1 := by omega
    have hTq : (0:ℚ) < ((max t 1 : ℕ) : ℚ) := by exact_mod_cast hT
    simp only [jsScore, if_neg hc]
    have h1 : dval (rnd53 c (max t 1)) ≤ 1 := by
      have := dval_rnd53_le c (max t 1) 1 hcp hT (by norm_num) ?_
      · exact_mod_cast this
      · rw [Nat.cast_one, div_le_one hTq]
        exact_mod_cast hcT
    have hm1 : 0 < (rnd53 c (max t 1)).1 := by
      have := rnd53_fst_lower c (max t 1) hcp hT
      positivity
    obtain ⟨p, q, hp, hq, heq, hv⟩ :=
      rnd53dy_rep ((rnd53 c (max t 1)).1 * 100) (rnd53 c (max t 1)).2 (by positivity)
    refine roundDy_le _ 100 ?_
    rw [heq]
    have h2 : dval (rnd53 p q) ≤ (100:ℕ) := by
      refine dval_rnd53_le p q 100 hp hq (by norm_num) ?_
      rw [hv]
      have hrw : ((((rnd53 c (max t 1)).1 * 100 : ℕ)) : ℚ) / 2 ^ (rnd53 c (max t 1)).2
          = 100 * dval (rnd53 c (max t 1)) := by
        rw [dval]
        push_cast
        ring
      rw [hrw]
      push_cast
      linarith
    exact_mod_cast h2

/-! ### Closed form of the grading loop -/

theorem gradeCounts_foldl (key : List (String × ℕ)) (ans : String → Option ℤ) :
    ∀ init : ℕ × ℕ,
      key.foldl
        (fun p entry =>
          (p.1 + (if ans entry.1 = some (entry.2 : ℤ) then 1 else 0), p.2 + 1)) init
      = (init.1 + key.countP (fun p => decide (ans p.1 = some (p.2 : ℤ))),
         init.2 + key.length) := by
  induction key with
  | nil => intro init; simp
  | cons x l ih =>
    intro init
    rw [List.foldl_cons, ih, List.countP_cons, List.length_cons]
    by_cases hx : ans x.1 = some (x.2 : ℤ) <;> simp [hx] <;> omega

/-- The grading loop counts exactly the key entries answered identically, and
the total is the number of key entries. -/
theorem gradeCounts_eq (key : List (String × ℕ)) (ans : String → Option ℤ) :
    gradeCounts key ans
      = (key.countP (fun p => decide (ans p.1 = some (p.2 : ℤ))), key.length) := by
  rw [gradeCounts, gradeCounts_foldl]
  simp

theorem gradeCounts_correct_le_total (key : List (String × ℕ)) (ans : String → Option ℤ) :
    (gradeCounts key ans).1 ≤ (gradeCounts key ans).2 := by
  rw [gradeCounts_eq]
  exact List.countP_le_length _

/-! ### Codec lemmas -/

theorem encodeLoop_ok (letters : List Char) :
    ∀ (key : List Char) (i : ℕ), (∀ ch ∈ key, ch ∈ letters) →
      ∃ m, encodeLoop letters i key = .ok m ∧ m.length = key.length ∧
        ∀ j, j < key.length →
          m.getD j ("", 0) = ("q" ++ toString (i + j), letters.indexOf (key.getD j 'A')) := by
  intro key
  induction key with
  | nil =>
    intro i _
    exact ⟨[], rfl, rfl, by intro j hj; simp at hj⟩
  | cons ch rest ih =>
    intro i hmem
    have hch : ch ∈ letters := hmem ch (List.mem_cons_self ch rest)
    have hidx : letters.indexOf ch < letters.length := List.indexOf_lt_length.2 hch
    obtain ⟨m, hm, hlen, hget⟩ := ih (i + 1) (fun c hc => hmem c (List.mem_cons_of_mem ch hc))
    refine ⟨("q" ++ toString i, letters.indexOf ch) :: m, ?_, by simp [hlen], ?_⟩
    · rw [encodeLoop, if_pos hidx, hm]
    · intro j hj
      match j with
      | 0 => simp
      | j' + 1 =>
        rw [List.getD_cons_succ, List.getD_cons_succ]
        rw [hget j' (by simpa using hj)]
        have harith : i + 1 + j' = i + (j' + 1) := by omega
        rw [harith]

theorem encodeLoop_error (letters : List Char) :
    ∀ (key : List Char) (i : ℕ), (∃ ch ∈ key, ch ∉ letters) →
      encodeLoop letters i key
        = .error ("answer_key must use only " ++ String.mk letters) := by
  intro key
  induction key with
  | nil => intro i h; simp at h
  | cons ch rest ih =>
    intro i hbad
    by_cases hch : letters.indexOf ch < letters.length
    · have hmem : ch ∈ letters := List.indexOf_lt_length.1 hch
      have hrest : ∃ c ∈ rest, c ∉ letters := by
        rcases hbad with ⟨c, hc, hnot⟩
        rcases List.mem_cons.1 hc with rfl | hcr
        · exact absurd hmem hnot
        · exact ⟨c, hcr, hnot⟩
      rw [encodeLoop, if_pos hch, ih (i + 1) hrest]
    · rw [encodeLoop, if_neg hch]

/-! ### Claim theorems -/

/-- C1.  The claim says deleting a Test first nulls out the `test_id` of its
referencing Submissions and then deletes the Test, so the delete succeeds and
the Submissions survive.  Against the schema actually committed in
`sql/schema.sql` (line 15: `test_id uuid NOT NULL REFERENCES tests(id) ON
DELETE CASCADE`) this is false: on a database holding one test and one
submission referencing it, the detaching `UPDATE submissions SET test_id =
NULL` violates the `NOT NULL` constraint, the handler's catch turns this into
a 500 response, and neither table changes — the test is never deleted, so the
"(deleted test)" view is unreachable.  (`server.js` itself documents, at lines
443-444 and 456-457, that the column must be nullable; the schema contradicts
the code's own requirement, and its `ON DELETE CASCADE` would destroy
submissions, contradicting the spec's "set null, not cascaded".) -/
theorem C1_delete_test_blocked_by_schema :
    demoSub.testId = some demoTest.tid ∧
    demoSub ∈ demoDB.submissions ∧
    detachSubmissions demoDB demoTest.tid
      = .error "null value in column \x22test_id\x22 violates not-null constraint" ∧
    deleteTestHandler demoDB demoTest.tid false ["uploads/1.png"]
      = (.error (500, "failed to delete test"), demoDB, ["uploads/1.png"]) := by
  refine ⟨rfl, by decide, by decide, by decide⟩

/-- C3.  For every question count `1 ≤ n ≤ 200` and choice count
`c ∈ {4, 5}`, encoding a key string of length `n` over the first `c` letters
of `"ABCDE"` succeeds with exactly `n` entries, keyed `q1 .. qn` in order,
each value the zero-based index of the corresponding letter, all below `c`. -/
theorem C3_encode_key_ok (n c : ℕ) (key : List Char)
    (hn1 : 1 ≤ n) (hn2 : n ≤ 200) (hc : c = 4 ∨ c = 5)
    (hlen : key.length = n) (hkey : ∀ ch ∈ key, ch ∈ lettersFor c) :
    ∃ m, encodeAnswerKey n (lettersFor c) key = .ok m ∧ m.length = n ∧
      (∀ j, j < n → m.getD j ("", 0)
        = ("q" ++ toString (j + 1), (lettersFor c).indexOf (key.getD j 'A'))) ∧
      (∀ p ∈ m, p.2 < c) := by
  obtain ⟨m, hm, hmlen, hget⟩ := encodeLoop_ok (lettersFor c) key 1 hkey
  have hclen : (lettersFor c).length = c := by
    rcases hc with rfl | rfl <;> rfl
  refine ⟨m, ?_, by omega, ?_, ?_⟩
  · rw [encodeAnswerKey, if_neg (by omega)]
    exact hm
  · intro j hj
    have hg := hget j (by omega)
    rw [Nat.add_comm 1 j] at hg
    exact hg
  · intro p hp
    obtain ⟨j, hjlt, hjp⟩ := List.mem_iff_getElem.1 hp
    have hjkey : j < key.length := by omega
    have hgd : m.getD j ("", 0) = p := by
      rw [List.getD_eq_getElem m ("", 0) hjlt, hjp]
    have hg := hget j (by omega)
    rw [hgd] at hg
    have hchmem : key.getD j 'A' ∈ key := by
      rw [List.getD_eq_getElem key 'A' hjkey]
      exact List.getElem_mem hjkey
    have hin : key.getD j 'A' ∈ lettersFor c := hkey _ hchmem
    have hidx : (lettersFor c).indexOf (key.getD j 'A') < (lettersFor c).length :=
      List.indexOf_lt_length.2 hin
    have hp2 : p.2 = (lettersFor c).indexOf (key.getD j 'A') := by
      rw [hg]
    omega

/-- C3 witness: the spec's own example, `answer_key = "BAD"` with three
questions over four choices. -/
theorem C3_encode_key_ok_witness :
    ∃ m, encodeAnswerKey 3 (lettersFor 4) ['B', 'A', 'D'] = .ok m ∧ m.length = 3 ∧
      (∀ j, j < 3 → m.getD j ("", 0)
        = ("q" ++ toString (j + 1), (lettersFor 4).indexOf (['B', 'A', 'D'].getD j 'A'))) ∧
      (∀ p ∈ m, p.2 < 4) :=
  C3_encode_key_ok 3 4 ['B', 'A', 'D'] (by norm_num) (by norm_num) (Or.inl rfl) rfl
    (by decide)

/-- C5.  Grading is monotone: if `ans'` agrees with `ans` everywhere except at
one question id `q` of the key, which `ans` answers incorrectly (or not at
all) and `ans'` answers correctly, the score cannot decrease. -/
theorem C5_grading_monotonic (key : List (String × ℕ)) (ans ans' : String → Option ℤ)
    (q : String)
    (hwrong : ∀ k : ℕ, (q, k) ∈ key → ans q ≠ some (k : ℤ))
    (hright : ∀ k : ℕ, (q, k) ∈ key → ans' q = some (k : ℤ))
    (hagree : ∀ x, x ≠ q → ans' x = ans x) :
    jsScore (gradeCounts key ans).1 (gradeCounts key ans).2
      ≤ jsScore (gradeCounts key ans').1 (gradeCounts key ans').2 := by
  rw [gradeCounts_eq, gradeCounts_eq]
  refine jsScore_mono _ _ _ ?_
  refine List.countP_mono_left ?_
  intro p hp hcond
  simp only [decide_eq_true_eq] at hcond ⊢
  by_cases hqp : p.1 = q
  · exfalso
    have hpk : (q, p.2) ∈ key := by
      rw [← hqp]
      exact hp
    exact hwrong p.2 hpk (by rw [← hqp]; exact hcond)
  · rw [hagree p.1 hqp]
    exact hcond

/-- C5 witness: a one-question key, unanswered versus answered correctly. -/
theorem C5_grading_monotonic_witness :
    jsScore (gradeCounts [("q1", 1)] (fun _ => none)).1
        (gradeCounts [("q1", 1)] (fun _ => none)).2
      ≤ jsScore (gradeCounts [("q1", 1)]
            (fun x => if x = "q1" then some 1 else none)).1
          (gradeCounts [("q1", 1)] (fun x => if x = "q1" then some 1 else none)).2 :=
  C5_grading_monotonic [("q1", 1)] (fun _ => none)
    (fun x => if x = "q1" then some 1 else none) "q1"
    (by intro k hk; simp)
    (by intro k hk; simp at hk; simp [hk])
    (by intro x hx; simp [hx])

/-- C10.  `tryDeleteFile` never propagates an error (its whole body is inside
`try/catch`, so it returns a plain file store for every input, including when
the filesystem unlink fails, `fsFail = true`); it deletes nothing when the
URL is empty or when the filename contains `".."`; and any deletion it does
perform removes exactly one path of the form `uploadDir ++ "/" ++ filename`
with a `".."`-free filename — confining deletions to the uploads directory. -/
theorem C10_tryDeleteFile_safe (url : String) (fsFail : Bool) (files : List String) :
    (url = "" → tryDeleteFile url fsFail files = files) ∧
    (hasDotDot (stripUploadsDir url).toList = true → tryDeleteFile url fsFail files = files) ∧
    (tryDeleteFile url fsFail files = files ∨
      (hasDotDot (stripUploadsDir url).toList = false ∧ stripUploadsDir url ≠ "" ∧
        tryDeleteFile url fsFail files
          = files.erase (uploadDir ++ "/" ++ stripUploadsDir url))) := by
  simp only [tryDeleteFile]
  split_ifs with h1 h2 h3 h4
  · exact ⟨fun _ => rfl, fun _ => rfl, Or.inl rfl⟩
  · exact ⟨fun _ => rfl, fun _ => rfl, Or.inl rfl⟩
  · exact ⟨fun _ => rfl, fun _ => rfl, Or.inl rfl⟩
  · rcases not_or.1 h2 with ⟨hne, hdd⟩
    refine ⟨fun hu => absurd hu h1, fun hd => absurd hd ?_, Or.inr ⟨?_, hne, rfl⟩⟩
    · simpa using hdd
    · simpa using hdd
  · exact ⟨fun _ => rfl, fun _ => rfl, Or.inl rfl⟩

/-- C4.  With a declared question count `1 ≤ n ≤ 200` and choice count
`c ∈ {4, 5}`, the codec rejects any key string whose length differs from `n`
or that contains a character outside the first `c` letters; and whenever the
codec rejects the (normalized) key, the upload handler returns the validation
error and inserts no Test record. -/
theorem C4_encode_fails (n c : ℕ) (key : List Char) (db : DB) (newId : String)
    (createdAt : ℕ) (f subject level : String) (title : Option String) (raw : String)
    (hn1 : 1 ≤ n) (hn2 : n ≤ 200) (hc : c = 4 ∨ c = 5)
    (hsub : subject ≠ "") (hlev : level ≠ "")
    (hbad : key.length ≠ n ∨ ∃ ch ∈ key, ch ∉ lettersFor c) :
    (∃ e, encodeAnswerKey n (lettersFor c) key = .error e) ∧
    (∀ e, encodeAnswerKey n (lettersFor c) (normalizeKey raw) = .error e →
      uploadTestHandler db newId createdAt (some f) subject level title (some (n : ℤ))
          (some (c : ℤ)) (some raw)
        = (.error (400, e), db)) := by
  constructor
  · by_cases hl : key.length = n
    · rcases hbad with h | h
      · exact absurd hl h
      · refine ⟨"answer_key must use only " ++ String.mk (lettersFor c), ?_⟩
        rw [encodeAnswerKey, if_neg (by omega)]
        exact encodeLoop_error (lettersFor c) key 1 h
    · exact ⟨"answer_key must be length " ++ toString n, by rw [encodeAnswerKey, if_pos hl]⟩
  · intro e hE
    have hreq : ¬(subject = "" ∨ level = "") := by tauto
    have hrange : (1:ℤ) ≤ (n:ℤ) ∧ (n:ℤ) ≤ 200 :=
      ⟨by exact_mod_cast hn1, by exact_mod_cast hn2⟩
    have hcne : (c:ℤ) ≠ 0 := by rcases hc with rfl | rfl <;> norm_num
    have hcz : (c:ℤ) = 4 ∨ (c:ℤ) = 5 := by rcases hc with rfl | rfl <;> norm_num
    simp only [uploadTestHandler]
    rw [if_neg hreq, if_neg (not_not_intro hrange), if_neg hcne,
      if_neg (not_not_intro hcz)]
    simp only [Int.toNat_natCast, Option.getD_some]
    rw [hE]

/-- C4 witness: a key with a letter outside the four allowed ones is
rejected and the upload handler leaves the database unchanged. -/
theorem C4_encode_fails_witness :
    (∃ e, encodeAnswerKey 3 (lettersFor 4) ['B', 'A', 'E'] = .error e) ∧
    uploadTestHandler demoDB "id9" 7 (some "f.png") "english" "beginner" none (some 3)
        (some 4) (some "BAE")
      = (.error (400, "answer_key must use only ABCD"), demoDB) :=
  ⟨(C4_encode_fails 3 4 ['B', 'A', 'E'] demoDB "id9" 7 "f.png" "english" "beginner" none
      "BAE" (by norm_num) (by norm_num) (Or.inl rfl) (by decide) (by decide)
      (Or.inr ⟨'E', by decide, by decide⟩)).1,
   (C4_encode_fails 3 4 ['B', 'A', 'E'] demoDB "id9" 7 "f.png" "english" "beginner" none
      "BAE" (by norm_num) (by norm_num) (Or.inl rfl) (by decide) (by decide)
      (Or.inr ⟨'E', by decide, by decide⟩)).2
    "answer_key must use only ABCD" (by decide)⟩

/-- C6.  In the edit handler, when the request omits the answer key the stored
map is kept exactly (whatever new question count was supplied); when it
supplies one, the key is re-validated and re-encoded against the new question
count and the new choice letters, and a codec failure aborts the edit with
its validation error. -/
theorem C6_edit_key_handling (db : DB) (tid : String) (title subject level : Option String)
    (numQ choicesC : Option ℤ) (removeImage file0 : Option String) (fsFail : Bool)
    (files : List String) (t : TestRec)
    (hfind : findTest db tid = some t)
    (himg : t.questions.qtype = "image")
    (hcc : editNewChoices t.questions choicesC = 4 ∨ editNewChoices t.questions choicesC = 5)
    (hnn : 1 ≤ editNewN t.questions numQ ∧ editNewN t.questions numQ ≤ 200) :
    (∀ t', (editTestHandler db tid title subject level numQ choicesC none removeImage
        file0 fsFail files).1 = .ok t' → t'.answerKey = t.answerKey) ∧
    (∀ raw m, encodeAnswerKey (editNewN t.questions numQ).toNat
        (lettersFor (editNewChoices t.questions choicesC).toNat) (normalizeKey raw)
          = .ok m →
      ∀ t', (editTestHandler db tid title subject level numQ choicesC (some raw)
          removeImage file0 fsFail files).1 = .ok t' → t'.answerKey = m) ∧
    (∀ raw e, encodeAnswerKey (editNewN t.questions numQ).toNat
        (lettersFor (editNewChoices t.questions choicesC).toNat) (normalizeKey raw)
          = .error e →
      (editTestHandler db tid title subject level numQ choicesC (some raw)
          removeImage file0 fsFail files).1 = .error (400, e)) := by
  have himg' : ¬(t.questions.qtype ≠ "image") := not_not_intro himg
  refine ⟨?_, ?_, ?_⟩
  · intro t' ht'
    simp only [editTestHandler, hfind, if_neg himg', if_neg (not_not_intro hcc),
      if_neg (not_not_intro hnn)] at ht'
    rcases Except.ok.inj ht' with rfl
    rfl
  · intro raw m hm t' ht'
    simp only [editTestHandler, hfind, if_neg himg', if_neg (not_not_intro hcc),
      if_neg (not_not_intro hnn), hm] at ht'
    rcases Except.ok.inj ht' with rfl
    rfl
  · intro raw e he
    simp only [editTestHandler, hfind, if_neg himg', if_neg (not_not_intro hcc),
      if_neg (not_not_intro hnn), he]

/-- C6 witness: editing the demo test with a new question count of 2 and no
answer key keeps the stored three-entry key; supplying `"AB"` re-encodes it. -/
theorem C6_edit_key_handling_witness :
    (∀ t', (editTestHandler demoDB "t1" none none none (some 2) none none none
        none false []).1 = .ok t' → t'.answerKey = demoTest.answerKey) ∧
    (∀ t', (editTestHandler demoDB "t1" none none none (some 2) none (some "AB") none
        none false []).1 = .ok t' → t'.answerKey = [("q1", 0), ("q2", 1)]) :=
  ⟨(C6_edit_key_handling demoDB "t1" none none none (some 2) none none none false []
      demoTest (by decide) rfl (Or.inl rfl) (by decide)).1,
   (C6_edit_key_handling demoDB "t1" none none none (some 2) none none none false []
      demoTest (by decide) rfl (Or.inl rfl) (by decide)).2.1 "AB"
    [("q1", 0), ("q2", 1)] (by decide)⟩

theorem toList_uploads_append (s : String) :
    ("/uploads/" ++ s).toList = "/uploads/".toList ++ s.toList := rfl

theorem stripUploadsDir_concat (s : String) : stripUploadsDir ("/uploads/" ++ s) = s := by
  simp only [stripUploadsDir, toList_uploads_append]
  rw [if_pos]
  · have hlen : ("/uploads/".toList).length = 9 := rfl
    rw [← hlen, List.drop_left]
    rfl
  · have : "/uploads/".toList <+: "/uploads/".toList ++ s.toList := List.prefix_append _ _
    exact List.isPrefixOf_iff_prefix.2 this

theorem uploads_append_ne_empty (s : String) : ("/uploads/" ++ s) ≠ "" := by
  intro h
  have h2 := congrArg String.toList h
  rw [toList_uploads_append] at h2
  simp at h2

/-- C7.  The image-replace handler deletes the old asset only after the
record update has succeeded: if persistence fails nothing is deleted and the
database is unchanged (500); on success the record references exactly the one
new asset URL and exactly the old asset's path is erased from the file
store. -/
theorem C7_replace_image_ordering (db : DB) (tid f : String) (fsFail : Bool)
    (files : List String) (t : TestRec) (fname : String)
    (hfind : findTest db tid = some t)
    (hold : t.questions.imageUrl = some ("/uploads/" ++ fname))
    (hfn : fname ≠ "")
    (hdd : hasDotDot fname.toList = false)
    (hfs : fsFail = false)
    (hmem : (uploadDir ++ "/" ++ fname) ∈ files) :
    (replaceImageHandler db tid (some f) false fsFail files
      = (.error (500, "failed to replace image"), db, files)) ∧
    (∃ t', replaceImageHandler db tid (some f) true fsFail files
        = (.ok (tid, "/uploads/" ++ f),
           { db with tests := db.tests.map (fun x => if x.tid == tid then t' else x) },
           files.erase (uploadDir ++ "/" ++ fname)) ∧
      t'.questions.imageUrl = some ("/uploads/" ++ f) ∧
      t' = { t with questions := { t.questions with imageUrl := some ("/uploads/" ++ f) } }) := by
  constructor
  · simp only [replaceImageHandler, hfind]
    rfl
  · refine ⟨{ t with questions := { t.questions with imageUrl := some ("/uploads/" ++ f) } },
      ?_, rfl, rfl⟩
    simp only [replaceImageHandler, hfind, hold, if_pos]
    have hdel : tryDeleteFile ("/uploads/" ++ fname) fsFail files
        = files.erase (uploadDir ++ "/" ++ fname) := by
      rw [tryDeleteFile, if_neg (uploads_append_ne_empty fname)]
      simp only [stripUploadsDir_concat]
      rw [if_neg (by simp [hfn, show hasDotDot fname.data = false from hdd]),
        if_pos (by simpa using hmem), hfs]
      simp
    rw [hdel]

/-- C7 witness: replacing the demo test's image with persistence succeeding
deletes exactly the old file. -/
theorem C7_replace_image_ordering_witness :
    replaceImageHandler demoDB "t1" (some "n.png") false false ["uploads/1.png"]
      = (.error (500, "failed to replace image"), demoDB, ["uploads/1.png"]) :=
  (C7_replace_image_ordering demoDB "t1" "n.png" false ["uploads/1.png"] demoTest "1.png"
    (by decide) rfl (by decide) (by decide) rfl (by decide)).1

theorem latestOf_mem (t : TestRec) (ts : List TestRec) : latestOf t ts ∈ t :: ts := by
  induction ts generalizing t with
  | nil => simp [latestOf]
  | cons x ts ih =>
    simp only [latestOf, List.foldl_cons]
    have h := ih (if t.createdAt < x.createdAt then x else t)
    simp only [latestOf] at h
    rcases List.mem_cons.1 h with heq | hmem
    · rw [heq]
      split_ifs <;> simp
    · simp [hmem]

theorem latestOf_max (t : TestRec) (ts : List TestRec) :
    ∀ u ∈ t :: ts, u.createdAt ≤ (latestOf t ts).createdAt := by
  induction ts generalizing t with
  | nil =>
    intro u hu
    rcases List.mem_cons.1 hu with rfl | h
    · simp [latestOf]
    · simp at h
  | cons x ts ih =>
    intro u hu
    simp only [latestOf, List.foldl_cons]
    have hhead : (if t.createdAt < x.createdAt then x else t).createdAt
        ≤ (latestOf (if t.createdAt < x.createdAt then x else t) ts).createdAt :=
      ih _ _ (List.mem_cons_self _ _)
    have hxt : t.createdAt ≤ (if t.createdAt < x.createdAt then x else t).createdAt ∧
        x.createdAt ≤ (if t.createdAt < x.createdAt then x else t).createdAt := by
      split_ifs with hlt <;> omega
    rcases List.mem_cons.1 hu with rfl | hu'
    · calc u.createdAt ≤ (if u.createdAt < x.createdAt then x else u).createdAt := hxt.1
        _ ≤ _ := hhead
    · rcases List.mem_cons.1 hu' with rfl | hu''
      · calc u.createdAt ≤ (if t.createdAt < u.createdAt then u else t).createdAt := hxt.2
          _ ≤ _ := hhead
      · exact ih _ u (List.mem_cons_of_mem _ hu'')

theorem testsMatching_mem (db : DB) (subj lev : String) (t : TestRec)
    (h : t ∈ testsMatching db subj lev) : t.subject = subj ∧ t.level = lev := by
  rcases List.mem_filter.1 h with ⟨_, hcond⟩
  simpa using hcond

/-- C9.  `GET /tests` returns one test matching the requested subject and
level: the most recently created one for `pick=latest`, otherwise (any other
`pick`, including the omitted default `"random"`) a uniformly random match —
modelled as the match at a uniformly drawn index `r mod (number of matches)`,
every match being selected by some draw; it 404s when nothing matches. -/
theorem C9_test_selection (db : DB) (subject level pick : String) (r : ℕ)
    (hsub : jsTrim subject ≠ "") (hlev : jsTrim level ≠ "") :
    (testsMatching db (jsTrim subject) (jsTrim level) = [] →
      getTestsHandler db subject level pick r
        = .error (404, "No tests found for that subject/level")) ∧
    (∀ t, getTestsHandler db subject level pick r = .ok t →
      t ∈ testsMatching db (jsTrim subject) (jsTrim level) ∧
      t.subject = jsTrim subject ∧ t.level = jsTrim level) ∧
    (pick = "latest" → ∀ t, getTestsHandler db subject level pick r = .ok t →
      ∀ u ∈ testsMatching db (jsTrim subject) (jsTrim level),
        u.createdAt ≤ t.createdAt) ∧
    (pick ≠ "latest" →
      ∀ i dflt, i < (testsMatching db (jsTrim subject) (jsTrim level)).length →
        getTestsHandler db subject level pick i
          = .ok ((testsMatching db (jsTrim subject) (jsTrim level)).getD i dflt)) ∧
    (testsMatching db (jsTrim subject) (jsTrim level) ≠ [] →
      ∃ t, getTestsHandler db subject level pick r = .ok t) := by
  have hcond : ¬(jsTrim subject = "" ∨ jsTrim level = "") := by tauto
  cases hM : testsMatching db (jsTrim subject) (jsTrim level) with
  | nil =>
    refine ⟨fun _ => ?_, ?_, ?_, ?_, ?_⟩
    · simp only [getTestsHandler, if_neg hcond, hM]
    · intro t ht
      simp only [getTestsHandler, if_neg hcond, hM] at ht
      exact Except.noConfusion ht
    · intro _ t ht
      simp only [getTestsHandler, if_neg hcond, hM] at ht
      exact Except.noConfusion ht
    · intro _ i dflt hi
      simp at hi
    · intro hne
      exact absurd rfl hne
  | cons t0 ts =>
    have hlen : 0 < ts.length + 1 := by omega
    have hmm : ∀ u, u ∈ t0 :: ts → u ∈ testsMatching db (jsTrim subject) (jsTrim level) := by
      intro u hu
      rw [hM]
      exact hu
    refine ⟨fun habs => ?_, ?_, ?_, ?_, ?_⟩
    · simp at habs
    · intro t ht
      simp only [getTestsHandler, if_neg hcond, hM] at ht
      by_cases hp : pick = "latest"
      · rw [if_pos hp] at ht
        rcases Except.ok.inj ht with rfl
        refine ⟨latestOf_mem t0 ts, ?_⟩
        exact testsMatching_mem _ _ _ _ (hmm _ (latestOf_mem t0 ts))
      · rw [if_neg hp] at ht
        rcases Except.ok.inj ht with rfl
        have hb : r % (ts.length + 1) < (t0 :: ts).length := by
          have := Nat.mod_lt r hlen
          simpa using this
        have hmemc : (t0 :: ts).getD (r % (ts.length + 1)) t0 ∈ t0 :: ts := by
          rw [List.getD_eq_getElem _ _ hb]
          exact List.getElem_mem hb
        exact ⟨hmemc, testsMatching_mem _ _ _ _ (hmm _ hmemc)⟩
    · intro hp t ht
      simp only [getTestsHandler, if_neg hcond, hM, if_pos hp] at ht
      rcases Except.ok.inj ht with rfl
      intro u hu
      exact latestOf_max t0 ts u hu
    · intro hp i dflt hi
      simp only [List.length_cons] at hi
      simp only [getTestsHandler, if_neg hcond, hM, if_neg hp]
      have hmod : i % (ts.length + 1) = i := Nat.mod_eq_of_lt hi
      rw [hmod]
      congr 1
      rw [List.getD_eq_getElem _ _ (by simpa using hi),
        List.getD_eq_getElem _ _ (by simpa using hi)]
    · intro _
      by_cases hp : pick = "latest"
      · exact ⟨latestOf t0 ts, by simp only [getTestsHandler, if_neg hcond, hM, if_pos hp]⟩
      · exact ⟨(t0 :: ts).getD (r % (ts.length + 1)) t0,
          by simp only [getTestsHandler, if_neg hcond, hM, if_neg hp]⟩

/-- C9 witness: selecting from the demo database by trimmed subject and
level (`pick` omitted in spirit: any non-`latest` value is random). -/
theorem C9_test_selection_witness :
    getTestsHandler demoDB " english " "beginner" "random" 0
      = .ok ((testsMatching demoDB (jsTrim " english ") (jsTrim "beginner")).getD 0 demoTest) :=
  (C9_test_selection demoDB " english " "beginner" "random" 0 (by decide)
    (by decide)).2.2.2.1 (by decide) 0 demoTest (by decide)

/-- A 40-question answer key (all correct answers `A`, i.e. index 0). -/
def cKey40 : List (String × ℕ) := (List.range 40).map (fun i => ("q" ++ toString (i + 1), 0))

/-- A submitted answers object answering the first 23 of them correctly. -/
def cAnsList23 : List (String × ℤ) :=
  (List.range 23).map (fun i => ("q" ++ toString (i + 1), 0))

def cTest40 : TestRec :=
  { tid := "t40", subject := "math", level := "advanced", title := "T40"
    questions := demoQuestions, answerKey := cKey40, createdAt := 1 }

def cDB40 : DB := { tests := [cTest40], submissions := [] }

/-- C2 counterexample.  The claim says the grading operation returns
`round(100 × correct / max(total, 1))`.  The code computes
`Math.round((correct / Math.max(total, 1)) * 100)` in binary64: at
`correct = 23`, `total = 40` the true value is exactly `57.5`, but
`23 / 40` is not representable, the double product falls just below `57.5`,
and `Math.round` returns `57` while the claimed exact formula gives `58`. -/
theorem C2_score_not_exact_round :
    gradeCounts cKey40 (ansSem (some cAnsList23)) = (23, 40) ∧
    (submitHandler cDB40 "s" 0 "t40" "n" "g" "e" "p" none none (some cAnsList23)).1
      = .ok ("s", 57, 0) ∧
    round ((100 * (23:ℚ)) / ((max 40 1 : ℕ) : ℚ)) = 58 ∧
    ((57:ℤ) ≠ round ((100 * (23:ℚ)) / ((max 40 1 : ℕ) : ℚ))) := by
  have hmax : ((max 40 1 : ℕ) : ℚ) = 40 := by norm_num
  have h3 : round ((100 * (23:ℚ)) / ((max 40 1 : ℕ) : ℚ)) = 58 := by
    rw [hmax, round_eq]
    norm_num
  exact ⟨by decide, by decide, h3, by rw [h3]; decide⟩

/-- C2 (amended).  For every stored answer key `K` and submitted answers
map `A`, grading returns the binary64 evaluation of
`Math.round((correct / Math.max(total, 1)) * 100)` — `jsScore correct total` —
where `total` is the number of entries of `K` and `correct` the number of
entries whose id `A` maps to the stored index (this agrees with the exact
`round(100 × correct / max(total, 1))` except at halfway points, where the
float product can fall just below); an empty key yields score `0` with no
error, and ids present only in `A` are ignored. -/
theorem C2_score_formula (db : DB) (newId : String) (now : ℕ)
    (tid nm gr em ph : String) (subj lev : Option String)
    (answers : Option (List (String × ℤ))) (t : TestRec)
    (hreq : tid ≠ "" ∧ nm ≠ "" ∧ gr ≠ "" ∧ em ≠ "" ∧ ph ≠ "")
    (hfind : findTest db tid = some t) :
    (submitHandler db newId now tid nm gr em ph subj lev answers).1
      = .ok (newId,
          jsScore
            (t.answerKey.countP (fun p => decide (ansSem answers p.1 = some (p.2 : ℤ))))
            t.answerKey.length,
          now) ∧
    (t.answerKey = [] →
      (submitHandler db newId now tid nm gr em ph subj lev answers).1
        = .ok (newId, 0, now)) ∧
    (∀ answers' : Option (List (String × ℤ)),
      (∀ qid ∈ t.answerKey.map Prod.fst, ansSem answers qid = ansSem answers' qid) →
      (submitHandler db newId now tid nm gr em ph subj lev answers).1
        = (submitHandler db newId now tid nm gr em ph subj lev answers').1) := by
  have hnotreq : ¬(tid = "" ∨ nm = "" ∨ gr = "" ∨ em = "" ∨ ph = "") := by tauto
  have hmain : ∀ aa : Option (List (String × ℤ)),
      (submitHandler db newId now tid nm gr em ph subj lev aa).1
        = .ok (newId,
            jsScore (t.answerKey.countP (fun p => decide (ansSem aa p.1 = some (p.2 : ℤ))))
              t.answerKey.length,
            now) := by
    intro aa
    simp only [submitHandler, if_neg hnotreq, hfind, gradeCounts_eq]
  refine ⟨hmain answers, ?_, ?_⟩
  · intro hk
    rw [hmain answers, hk]
    simp [jsScore]
  · intro answers' hagree
    rw [hmain answers, hmain answers']
    have hcount : t.answerKey.countP (fun p => decide (ansSem answers p.1 = some (p.2 : ℤ)))
        = t.answerKey.countP (fun p => decide (ansSem answers' p.1 = some (p.2 : ℤ))) := by
      refine List.countP_congr ?_
      intro p hp
      have hq : ansSem answers p.1 = ansSem answers' p.1 :=
        hagree p.1 (List.mem_map_of_mem Prod.fst hp)
      rw [hq]
    rw [hcount]

/-- C2 witness: the spec's own worked example — three questions, key `"BAD"`
encoded as `{q1:1, q2:0, q3:3}`, submission `{q1:1, q2:0, q3:0}` scores 67. -/
theorem C2_score_formula_witness :
    (submitHandler demoDB "s2" 9 "t1" "n" "g" "e" "p" none none
        (some [("q1", 1), ("q2", 0), ("q3", 0)])).1
      = .ok ("s2",
          jsScore
            (demoTest.answerKey.countP
              (fun p => decide (ansSem (some [("q1", 1), ("q2", 0), ("q3", 0)]) p.1
                = some (p.2 : ℤ))))
            demoTest.answerKey.length,
          9) :=
  (C2_score_formula demoDB "s2" 9 "t1" "n" "g" "e" "p" none none
    (some [("q1", 1), ("q2", 0), ("q3", 0)]) demoTest
    (by refine ⟨?_, ?_, ?_, ?_, ?_⟩ <;> decide) (by decide)).1

/-- C8.  For every answer key and submitted answers map the computed score is
an integer in `[0, 100]`, and every submission row stored by the submit
handler either predates the call or carries such a score. -/
theorem C8_score_range (key : List (String × ℕ)) (ans : String → Option ℤ)
    (db : DB) (newId : String) (now : ℕ) (tid nm gr em ph : String)
    (subj lev : Option String) (answers : Option (List (String × ℤ))) :
    (0 ≤ (jsScore (gradeCounts key ans).1 (gradeCounts key ans).2 : ℤ) ∧
     (jsScore (gradeCounts key ans).1 (gradeCounts key ans).2 : ℤ) ≤ 100) ∧
    (∀ sub ∈ ((submitHandler db newId now tid nm gr em ph subj lev answers).2).submissions,
      sub ∈ db.submissions ∨ sub.score ≤ 100) := by
  constructor
  · constructor
    · exact_mod_cast Nat.zero_le _
    · have h := jsScore_le_100 _ _ (gradeCounts_correct_le_total key ans)
      exact_mod_cast h
  · intro sub hsub
    by_cases hreq : tid = "" ∨ nm = "" ∨ gr = "" ∨ em = "" ∨ ph = ""
    · left
      simpa [submitHandler, hreq] using hsub
    · cases hfind : findTest db tid with
      | none =>
        left
        simpa [submitHandler, hreq, hfind] using hsub
      | some t =>
        simp only [submitHandler, if_neg hreq, hfind] at hsub
        rcases List.mem_append.1 hsub with h | h
        · left; exact h
        · right
          have hs : sub.score
              = jsScore (gradeCounts t.answerKey (ansSem answers)).1
                  (gradeCounts t.answerKey (ansSem answers)).2 := by
            rcases List.mem_singleton.1 h with rfl
            rfl
          rw [hs]
          exact jsScore_le_100 _ _ (gradeCounts_correct_le_total _ _)

/-- C8 witness: a pre-existing submission row survives a concrete submit call
with its score, and the freshly computed score for the demo key is in range. -/
theorem C8_score_range_witness :
    demoSub ∈ demoDB.submissions ∨ demoSub.score ≤ 100 :=
  (C8_score_range [] (fun _ => none) demoDB "s3" 11 "t1" "n" "g" "e" "p" none none
    (some [("q1", 1)])).2 demoSub (by decide)

/-- C10 witness: the guards at concrete inputs, and a concrete confined
deletion. -/
theorem C10_tryDeleteFile_safe_witness :
    tryDeleteFile "" true ["uploads/x.png"] = ["uploads/x.png"] ∧
    tryDeleteFile "/uploads/../server.js" false ["server.js"] = ["server.js"] :=
  ⟨(C10_tryDeleteFile_safe "" true ["uploads/x.png"]).1 rfl,
   (C10_tryDeleteFile_safe "/uploads/../server.js" false ["server.js"]).2.1 (by decide)⟩

end Igloo
